import Mathlib

/-!
Shallow embedding of the core of `SWU-Organizer` (src/src/App.tsx): the binder
coordinate mapper, the card normalizer (`baseOnly`, `buildAltMaps`), the
inventory ledger (`inc`, `dec`, `performBulkAction`, `pruneZeros`,
`applyImport`), completion statistics (`filteredAllRows`,
`filteredMissingRows`, `inventoryStatus`) and the search resolver
(`suggestions`).

Modelling conventions:
* JavaScript numbers that hold card numbers and quantities are `Nat`
  (all arithmetic on them in the source is on non-negative integers;
  `Math.max(x - 1, 0)` becomes truncated subtraction).
* `MarketPrice` is modelled as `ℚ` (the source only multiplies and adds it).
* A JS object used as a dictionary (`Inventory = Record<number, number>`)
  is modelled as `Nat → Option Nat`: key presence is `some`, key deletion
  sets `none`.
* A JS `Map` built from a list of entries is modelled by `jsMapGet`
  (the last entry wins, as `Map` construction overwrites earlier keys).
* `Array.prototype.sort(cmp)` (stable in ES2019+) is modelled by
  `List.insertionSort le` with `le a b ↔ cmp a b ≤ 0`; `localeCompare` is
  modelled as code-point order on strings.
-/

/-- One card printing (source type `Card`).  The source field `Type` is
named `type` here (`Type` is not a legal Lean field name); `Set` keeps
its source name. -/
structure Card where
  Name : String
  Subtitle : Option String := none
  Number : Nat
  Aspects : List String := []
  type : Option String := none
  Rarity : Option String := none
  MarketPrice : ℚ := 0
  Set : String := ""
deriving DecidableEq, Repr

/-- `Inventory = Record<number, number>`: a JS object keyed by card number. -/
def Inventory : Type := Nat → Option Nat

/-- The empty inventory (`{}`). -/
def emptyInv : Inventory := fun _ => none

/-- `prev[n] || 0`. -/
def getQ (inv : Inventory) (n : Nat) : Nat := (inv n).getD 0

/-- `{ ...prev, [n]: q }`. -/
def setQ (inv : Inventory) (n q : Nat) : Inventory :=
  fun m => if m = n then some q else inv m

/-- `delete obj[n]` (via rest-spread in the source). -/
def delQ (inv : Inventory) (n : Nat) : Inventory :=
  fun m => if m = n then none else inv m

/-- `pruneZeros`: keep only entries with quantity `> 0`. -/
def pruneZeros (inv : Inventory) : Inventory :=
  fun n => match inv n with
    | some q => if q > 0 then some q else none
    | none => none

/-- JS `Map.get` over a list of entries: later entries overwrite earlier
ones, so lookup finds the **last** entry with the key. -/
def jsMapGet {β : Type} (l : List (Nat × β)) (k : Nat) : Option β :=
  (l.reverse.find? (fun e => e.1 = k)).map (fun e => e.2)

/-- JS `Map.has` over a list of entries. -/
def jsMapHas {β : Type} (l : List (Nat × β)) (k : Nat) : Bool :=
  l.any (fun e => e.1 = k)

/-- `s.toLowerCase()` (structurally, so that it reduces definitionally;
`Char.toLower` lowers ASCII letters, which is what the card data uses). -/
def strLower (s : String) : String := ⟨s.data.map Char.toLower⟩

/-- `s.trim()` (structurally). -/
def strTrim (s : String) : String :=
  ⟨((s.data.dropWhile Char.isWhitespace).reverse.dropWhile Char.isWhitespace).reverse⟩

-- Coordinate mapper ---------------------------------------------------------

/-- `binderLayout(n)`: linear card number to (page, row, column). -/
def binderLayout (n : Nat) : Nat × Nat × Nat :=
  ((n - 1) / 12 + 1, ((n - 1) % 12) / 4 + 1, (n - 1) % 4 + 1)

/-- `numberFromPRC(page, row, col)`: inverse of `binderLayout`. -/
def numberFromPRC (page row col : Nat) : Nat :=
  (page - 1) * 12 + (row - 1) * 4 + col

/-- `getSpreadCoords(page, row, column)`. -/
def getSpreadCoords (page row column : Nat) : Nat × Nat :=
  (if page % 2 ≠ 0 then column + 4 else column, row)

/-- `pageToSpread(p)`. -/
def pageToSpread (p : Nat) : Nat :=
  if p ≤ 1 then 0 else (p - 2) / 2 + 1

/-- `spreadToPrimaryPage(s)`. -/
def spreadToPrimaryPage (s : Nat) : Nat :=
  if s = 0 then 1 else 2 + (s - 1) * 2

/-- `quotaForType(type)`: 1 for Leader/Base (case-insensitively), else 3. -/
def quotaForType (type : Option String) : Nat :=
  let t := strLower (type.getD "")
  if t = "leader" ∨ t = "base" then 1 else 3

-- Spread count --------------------------------------------------------------

/-- `maxNumber`: `cardsBase.reduce((m,c) => Math.max(m, c.Number), 0)`. -/
def maxNumber (cardsBase : List Card) : Nat :=
  cardsBase.foldl (fun m c => max m c.Number) 0

/-- `totalPages = Math.max(1, Math.ceil(maxNumber / 12))`; `Math.ceil` of the
exact real quotient is modelled by the rational ceiling. -/
def totalPages (cardsBase : List Card) : ℤ :=
  max 1 ⌈(maxNumber cardsBase : ℚ) / 12⌉

/-- `totalSpreads = 1 + Math.ceil(Math.max(0, totalPages - 1) / 2)`. -/
def totalSpreads (cardsBase : List Card) : ℤ :=
  1 + ⌈((max 0 (totalPages cardsBase - 1) : ℤ) : ℚ) / 2⌉

/-- C1: the coordinate mappers are mutually inverse on valid layouts. -/
theorem binderLayout_numberFromPRC_roundTrip (n page row col : Nat)
    (hn : 1 ≤ n) (hp : 1 ≤ page) (hr1 : 1 ≤ row) (hr3 : row ≤ 3)
    (hc1 : 1 ≤ col) (hc4 : col ≤ 4) :
    numberFromPRC (binderLayout n).1 (binderLayout n).2.1 (binderLayout n).2.2 = n ∧
    binderLayout (numberFromPRC page row col) = (page, row, col) := by
  simp only [binderLayout, numberFromPRC, Prod.mk.injEq]
  omega

/-- Witness for C1 at a concrete valid input. -/
theorem binderLayout_numberFromPRC_roundTrip_witness :
    numberFromPRC (binderLayout 47).1 (binderLayout 47).2.1 (binderLayout 47).2.2 = 47 ∧
    binderLayout (numberFromPRC 4 3 2) = (4, 3, 2) :=
  ⟨(binderLayout_numberFromPRC_roundTrip 47 4 3 2 (by decide) (by decide)
      (by decide) (by decide) (by decide) (by decide)).1,
   (binderLayout_numberFromPRC_roundTrip 47 4 3 2 (by decide) (by decide)
      (by decide) (by decide) (by decide) (by decide)).2⟩

private lemma ceil_natCast_div (m d : Nat) (hd : 0 < d) :
    ⌈(m : ℚ) / d⌉ = ((m + (d - 1)) / d : ℕ) := by
  have key := Nat.div_add_mod (m + (d - 1)) d
  have hmod : (m + (d - 1)) % d < d := Nat.mod_lt _ hd
  set q : ℕ := (m + (d - 1)) / d with hqdef
  have hq1 : m ≤ d * q := by omega
  have hq2 : d * q < m + d := by omega
  have hdq : (0:ℚ) < d := by exact_mod_cast hd
  rw [Int.ceil_eq_iff]
  constructor
  · rw [lt_div_iff₀ hdq]
    have h2 : (d:ℚ) * q < (m:ℚ) + d := by exact_mod_cast hq2
    push_cast
    nlinarith [h2]
  · rw [div_le_iff₀ hdq]
    have h1 : (m:ℚ) ≤ (d:ℚ) * q := by exact_mod_cast hq1
    push_cast
    nlinarith [h1]

private lemma ceil_natCast_div_twelve (m : Nat) :
    ⌈(m : ℚ) / 12⌉ = ((m + 11) / 12 : ℕ) := by
  have h := ceil_natCast_div m 12 (by norm_num)
  norm_num at h
  exact_mod_cast h

private lemma ceil_natCast_div_two (m : Nat) :
    ⌈(m : ℚ) / 2⌉ = ((m + 1) / 2 : ℕ) := by
  have h := ceil_natCast_div m 2 (by norm_num)
  norm_num at h
  exact_mod_cast h

/-- C8: the binder-size formulas, characterised by integer arithmetic:
`totalPages = max 1 ⌈maxNumber/12⌉ = max 1 ((maxNumber+11)/12)` and
`totalSpreads = 1 + ⌈max 0 (totalPages-1) / 2⌉ = 1 + ((totalPages-1) + 1)/2`
(Nat division). -/
theorem totalPages_totalSpreads_eq (cardsBase : List Card) :
    totalPages cardsBase = max 1 (((maxNumber cardsBase + 11) / 12 : ℕ) : ℤ) ∧
    totalSpreads cardsBase =
      1 + (((totalPages cardsBase - 1).toNat + 1) / 2 : ℕ) := by
  have hp : totalPages cardsBase = max 1 (((maxNumber cardsBase + 11) / 12 : ℕ) : ℤ) := by
    unfold totalPages
    rw [ceil_natCast_div_twelve]
  refine ⟨hp, ?_⟩
  unfold totalSpreads
  have h1 : (1:ℤ) ≤ totalPages cardsBase := by
    rw [hp]; exact le_max_left _ _
  have hmax : max 0 (totalPages cardsBase - 1) = totalPages cardsBase - 1 := by
    omega
  obtain ⟨k, hk⟩ : ∃ k : ℕ, totalPages cardsBase - 1 = (k : ℤ) :=
    ⟨(totalPages cardsBase - 1).toNat, (Int.toNat_of_nonneg (by omega)).symm⟩
  rw [hmax, hk]
  simp only [Int.toNat_natCast, Int.cast_natCast]
  rw [ceil_natCast_div_two]

-- Set catalog and ledger ----------------------------------------------------

/-- A normalized set catalog (source type `ParsedSet`). -/
structure ParsedSet where
  key : String
  allCards : List Card
  baseCards : List Card
  baseToAll : List (Nat × List Nat)
  altToBase : List (Nat × Nat)
deriving Repr

/-- `byNumber.get(n)` where `byNumber = new Map(cardsBase.map(c => [c.Number, c]))`. -/
def lookupBase (ps : ParsedSet) (n : Nat) : Option Card :=
  jsMapGet (ps.baseCards.map (fun c => (c.Number, c))) n

/-- `byNumber.get(n) || cardsAll.find(x => x.Number === n)`: the card whose
type decides the quota in `inc`. -/
def cardForQuota (ps : ParsedSet) (n : Nat) : Option Card :=
  (lookupBase ps n).or (ps.allCards.find? (fun c => c.Number = n))

/-- The quota the ledger operations enforce at key `n`:
`quotaForType(c?.Type)` for the card found by `inc`'s lookup chain. -/
def quotaOf (ps : ParsedSet) (n : Nat) : Nat :=
  quotaForType ((cardForQuota ps n).bind Card.type)

/-- `inc(n)` from the source. -/
def inc (ps : ParsedSet) (inv : Inventory) (n : Nat) : Inventory :=
  setQ inv n (min (getQ inv n + 1) (quotaOf ps n))

/-- `dec(n)` from the source (`Math.max(q - 1, 0)` is `Nat` subtraction). -/
def dec (inv : Inventory) (n : Nat) : Inventory :=
  let next := getQ inv n - 1
  if next = 0 then delQ inv n else setQ inv n next

inductive BulkAction
  | add
  | remove
  | add_max
  | remove_all
deriving DecidableEq, Repr

def CORE_RARITIES : List String := ["Common", "Uncommon", "Rare", "Legendary"]

/-- The per-card target test inside `performBulkAction`. -/
def bulkMatches (target : String) (card : Card) : Bool :=
  if target = "all" then true
  else if CORE_RARITIES.contains target then card.Rarity == some target
  else if target = "Special" then card.Rarity == some "Special"
  else card.type == some target

/-- One iteration of `performBulkAction`'s loop body. -/
def bulkStep (action : BulkAction) (target : String) (qty : Nat)
    (inv : Inventory) (card : Card) : Inventory :=
  if bulkMatches target card then
    let maxQ := quotaForType card.type
    let currentQty := getQ inv card.Number
    match action with
    | .add => setQ inv card.Number (min (currentQty + qty) maxQ)
    | .add_max => setQ inv card.Number (min (currentQty + maxQ) maxQ)
    | .remove =>
        let nextQty := currentQty - qty
        if nextQty = 0 then delQ inv card.Number else setQ inv card.Number nextQty
    | .remove_all => delQ inv card.Number
  else inv

/-- `performBulkAction(action, target, qty)`: fold the loop body over the
base cards, then `pruneZeros`. -/
def performBulkAction (ps : ParsedSet) (action : BulkAction) (target : String)
    (qty : Nat) (inv : Inventory) : Inventory :=
  pruneZeros (ps.baseCards.foldl (bulkStep action target qty) inv)

/-- One user-visible ledger mutation. -/
inductive LedgerOp
  | incOp (n : Nat)
  | decOp (n : Nat)
  | bulkOp (action : BulkAction) (target : String) (qty : Nat)
deriving Repr

def applyLedgerOp (ps : ParsedSet) (inv : Inventory) : LedgerOp → Inventory
  | .incOp n => inc ps inv n
  | .decOp n => dec inv n
  | .bulkOp a t q => performBulkAction ps a t q inv

/-- Run a sequence of ledger mutations starting from the empty ledger. -/
def applyLedgerOps (ps : ParsedSet) (ops : List LedgerOp) : Inventory :=
  ops.foldl (applyLedgerOp ps) emptyInv

/-- The ledger invariant of the spec: every stored quantity `q` satisfies
`1 ≤ q ≤ quota` (so a key is absent exactly when its quantity is zero, and
no explicit zero entry is ever stored). -/
def LedgerInvariant (ps : ParsedSet) (inv : Inventory) : Prop :=
  ∀ n q, inv n = some q → 1 ≤ q ∧ q ≤ quotaOf ps n

/-- Weakened form that tolerates transient zero entries (inside the bulk
loop, before `pruneZeros`). -/
def WeakLedgerBound (ps : ParsedSet) (inv : Inventory) : Prop :=
  ∀ n q, inv n = some q → q ≤ quotaOf ps n

lemma one_le_quotaForType (t : Option String) : 1 ≤ quotaForType t := by
  simp only [quotaForType]
  split <;> omega

lemma find?_eq_of_mem_of_nodupKeys {β : Type} (l : List (Nat × β)) (k : Nat) (b : β)
    (hk : (l.map Prod.fst).Nodup) (he : (k, b) ∈ l) :
    l.find? (fun x => x.1 = k) = some (k, b) := by
  induction l with
  | nil => cases he
  | cons a t ih =>
      simp only [List.map_cons, List.nodup_cons] at hk
      rcases List.mem_cons.mp he with h | ht
      · rw [← h]
        rw [List.find?_cons_of_pos _ (by simp)]
      · have hmem : k ∈ t.map Prod.fst := List.mem_map.mpr ⟨(k, b), ht, rfl⟩
        have hne : ¬(a.1 = k) := by
          intro hh
          apply hk.1
          rw [hh]
          exact hmem
        rw [List.find?_cons_of_neg _ (by simpa using hne)]
        exact ih hk.2 ht

lemma lookupBase_of_mem (ps : ParsedSet)
    (hnd : (ps.baseCards.map Card.Number).Nodup)
    (c : Card) (hc : c ∈ ps.baseCards) :
    lookupBase ps c.Number = some c := by
  unfold lookupBase jsMapGet
  have h1 : ((ps.baseCards.map (fun c => (c.Number, c))).reverse.map Prod.fst).Nodup := by
    rw [← List.map_reverse, List.map_map]
    have heq : (Prod.fst ∘ fun c : Card => (c.Number, c)) = Card.Number := rfl
    rw [heq, List.map_reverse]
    exact List.nodup_reverse.mpr hnd
  have h2 : ((c.Number, c) : Nat × Card) ∈ (ps.baseCards.map (fun c => (c.Number, c))).reverse :=
    List.mem_reverse.mpr (List.mem_map.mpr ⟨c, hc, rfl⟩)
  rw [find?_eq_of_mem_of_nodupKeys _ c.Number c h1 h2]
  rfl

lemma quotaOf_of_mem_base (ps : ParsedSet)
    (hnd : (ps.baseCards.map Card.Number).Nodup)
    (c : Card) (hc : c ∈ ps.baseCards) :
    quotaOf ps c.Number = quotaForType c.type := by
  unfold quotaOf cardForQuota
  rw [lookupBase_of_mem ps hnd c hc]
  rfl

lemma one_le_quotaOf (ps : ParsedSet) (n : Nat) : 1 ≤ quotaOf ps n :=
  one_le_quotaForType _

lemma setQ_apply (inv : Inventory) (n q m : Nat) :
    setQ inv n q m = if m = n then some q else inv m := rfl

lemma delQ_apply (inv : Inventory) (n m : Nat) :
    delQ inv n m = if m = n then none else inv m := rfl

lemma inc_preserves (ps : ParsedSet) (inv : Inventory) (n : Nat)
    (h : LedgerInvariant ps inv) : LedgerInvariant ps (inc ps inv n) := by
  intro m q hm
  unfold inc at hm
  rw [setQ_apply] at hm
  split at hm
  · rename_i hmn
    subst hmn
    injection hm with hq
    subst hq
    exact ⟨Nat.le_min.mpr ⟨by omega, one_le_quotaOf ps m⟩, min_le_right _ _⟩
  · exact h m q hm

lemma dec_preserves (ps : ParsedSet) (inv : Inventory) (n : Nat)
    (h : LedgerInvariant ps inv) : LedgerInvariant ps (dec inv n) := by
  intro m q hm
  unfold dec at hm
  split at hm
  · rw [delQ_apply] at hm
    split at hm
    · cases hm
    · exact h m q hm
  · rename_i hnext
    rw [setQ_apply] at hm
    split at hm
    · rename_i hmn
      subst hmn
      injection hm with hq
      cases hinv : inv m with
      | none =>
          exfalso
          apply hnext
          unfold getQ
          rw [hinv]
          rfl
      | some x =>
          have hb := h m x hinv
          unfold getQ at hq hnext
          rw [hinv] at hq hnext
          simp only [Option.getD_some] at hq hnext
          omega
    · exact h m q hm

lemma bulkStep_preserves (ps : ParsedSet) (action : BulkAction) (target : String)
    (qty : Nat) (inv : Inventory) (card : Card)
    (hcard : quotaForType card.type ≤ quotaOf ps card.Number)
    (h : WeakLedgerBound ps inv) :
    WeakLedgerBound ps (bulkStep action target qty inv card) := by
  intro m q hm
  cases action with
  | add =>
      simp only [bulkStep] at hm
      split at hm
      · rw [setQ_apply] at hm
        split at hm
        · rename_i hmn
          subst hmn
          injection hm with hq
          subst hq
          exact le_trans (min_le_right _ _) hcard
        · exact h m q hm
      · exact h m q hm
  | add_max =>
      simp only [bulkStep] at hm
      split at hm
      · rw [setQ_apply] at hm
        split at hm
        · rename_i hmn
          subst hmn
          injection hm with hq
          subst hq
          exact le_trans (min_le_right _ _) hcard
        · exact h m q hm
      · exact h m q hm
  | remove =>
      simp only [bulkStep] at hm
      split at hm
      · split at hm
        · rw [delQ_apply] at hm
          split at hm
          · cases hm
          · exact h m q hm
        · rename_i hnz
          rw [setQ_apply] at hm
          split at hm
          · rename_i hmn
            subst hmn
            injection hm with hq
            cases hinv : inv card.Number with
            | none =>
                have h0 : getQ inv card.Number = 0 := by
                  unfold getQ; rw [hinv]; rfl
                omega
            | some x =>
                have hb := h card.Number x hinv
                unfold getQ at hq
                rw [hinv] at hq
                simp only [Option.getD_some] at hq
                omega
          · exact h m q hm
      · exact h m q hm
  | remove_all =>
      simp only [bulkStep] at hm
      split at hm
      · rw [delQ_apply] at hm
        split at hm
        · cases hm
        · exact h m q hm
      · exact h m q hm

lemma bulkFold_preserves (ps : ParsedSet) (action : BulkAction) (target : String)
    (qty : Nat) :
    ∀ (l : List Card) (inv : Inventory),
      (∀ c ∈ l, quotaForType c.type ≤ quotaOf ps c.Number) →
      WeakLedgerBound ps inv →
      WeakLedgerBound ps (l.foldl (bulkStep action target qty) inv) := by
  intro l
  induction l with
  | nil => intro inv _ h; exact h
  | cons a t ih =>
      intro inv hq h
      rw [List.foldl_cons]
      exact ih _ (fun c hc => hq c (List.mem_cons_of_mem a hc))
        (bulkStep_preserves ps action target qty inv a (hq a (List.mem_cons_self a t)) h)

lemma pruneZeros_invariant (ps : ParsedSet) (inv : Inventory)
    (h : WeakLedgerBound ps inv) : LedgerInvariant ps (pruneZeros inv) := by
  intro n q hn
  unfold pruneZeros at hn
  cases hinv : inv n with
  | none => rw [hinv] at hn; cases hn
  | some x =>
      simp only [hinv] at hn
      by_cases hx : x > 0
      · rw [if_pos hx] at hn
        injection hn with hq
        subst hq
        exact ⟨hx, h n x hinv⟩
      · rw [if_neg hx] at hn
        cases hn

lemma performBulkAction_preserves (ps : ParsedSet)
    (hnd : (ps.baseCards.map Card.Number).Nodup)
    (action : BulkAction) (target : String) (qty : Nat) (inv : Inventory)
    (h : LedgerInvariant ps inv) :
    LedgerInvariant ps (performBulkAction ps action target qty inv) := by
  unfold performBulkAction
  apply pruneZeros_invariant
  apply bulkFold_preserves
  · intro c hc
    rw [quotaOf_of_mem_base ps hnd c hc]
  · intro n q hn
    exact (h n q hn).2

/-- C2: starting from the empty ledger, after any sequence of `inc`, `dec`
and `performBulkAction` operations, every stored quantity `q` satisfies
`1 ≤ q ≤ quota(card.type)` (for the card `inc`'s lookup chain associates to
the key), so no explicit zero entry is ever stored and a key is absent
exactly when its quantity is zero. -/
theorem ledger_invariant (ps : ParsedSet) (ops : List LedgerOp)
    (hnd : (ps.baseCards.map Card.Number).Nodup) :
    LedgerInvariant ps (applyLedgerOps ps ops) := by
  unfold applyLedgerOps
  have main : ∀ (l : List LedgerOp) (inv : Inventory), LedgerInvariant ps inv →
      LedgerInvariant ps (l.foldl (applyLedgerOp ps) inv) := by
    intro l
    induction l with
    | nil => intro inv h; exact h
    | cons op t ih =>
        intro inv h
        rw [List.foldl_cons]
        apply ih
        cases op with
        | incOp n => exact inc_preserves ps inv n h
        | decOp n => exact dec_preserves ps inv n h
        | bulkOp a tg q => exact performBulkAction_preserves ps hnd a tg q inv h
  apply main
  intro n q hn
  cases hn

def lukeLeader : Card :=
  { Name := "Luke Skywalker", Number := 1, type := some ("Leader"),
    Rarity := some ("Rare"), Set := "W" }

def sabineUnit : Card :=
  { Name := "Sabine Wren", Number := 2, type := some ("Unit"),
    Rarity := some ("Common"), Set := "W" }

def witnessSet : ParsedSet :=
  { key := "W", allCards := [lukeLeader, sabineUnit],
    baseCards := [lukeLeader, sabineUnit],
    baseToAll := [(1, [1]), (2, [2])], altToBase := [] }

/-- Witness for C2 on a concrete catalog and operation sequence. -/
theorem ledger_invariant_witness :
    LedgerInvariant witnessSet (applyLedgerOps witnessSet
      [LedgerOp.incOp 1, LedgerOp.incOp 1,
       LedgerOp.bulkOp BulkAction.add ("all") 1, LedgerOp.decOp 2]) :=
  ledger_invariant witnessSet _ (by decide)

-- C3: incrementing an alt-printing number -----------------------------------

def ahsokaBase : Card :=
  { Name := "Ahsoka Tano", Number := 3, Aspects := ["Vigilance"],
    type := some ("Unit"), Rarity := some ("Common"), Set := "T" }

def ahsokaAlt : Card :=
  { Name := "Ahsoka Tano", Number := 150, Aspects := ["Vigilance"],
    type := some ("Unit"), Rarity := some ("Special"), Set := "T" }

def ahsokaSet : ParsedSet :=
  { key := "T", allCards := [ahsokaBase, ahsokaAlt], baseCards := [ahsokaBase],
    baseToAll := [(3, [3, 150])], altToBase := [(150, 3)] }

/-- Counterexample to C3: `150` is an alt-printing number of `ahsokaSet`
(a key of `altToBase`, not a base number), yet `inc` on the empty ledger
creates the entry keyed by `150` itself — the alt printing is silently
tracked as its own card rather than rejected. -/
theorem inc_alt_not_rejected :
    jsMapHas ahsokaSet.altToBase 150 = true ∧
    lookupBase ahsokaSet 150 = none ∧
    emptyInv 150 = none ∧
    (inc ahsokaSet emptyInv 150) 150 = some 1 := by
  refine ⟨by decide, by decide, rfl, ?_⟩
  rfl

/-- C3 amended: `inc` on an alt-printing number is **not** rejected: it
updates the entry keyed by that alt number itself, to
`min(prev + 1, quota)` for the quota of the card found by `inc`'s
`byNumber`-then-`allCards` lookup chain, leaving every other key unchanged. -/
theorem inc_alt_stores_under_alt (ps : ParsedSet) (inv : Inventory) (n : Nat)
    (halt : jsMapHas ps.altToBase n = true) :
    (inc ps inv n) n = some (min (getQ inv n + 1) (quotaOf ps n)) ∧
    ∀ m, m ≠ n → (inc ps inv n) m = inv m := by
  constructor
  · unfold inc
    rw [setQ_apply, if_pos rfl]
  · intro m hmn
    unfold inc
    rw [setQ_apply, if_neg hmn]

/-- Witness for the amended C3 on the concrete catalog. -/
theorem inc_alt_stores_under_alt_witness :
    (inc ahsokaSet emptyInv 150) 150 =
      some (min (getQ emptyInv 150 + 1) (quotaOf ahsokaSet 150)) ∧
    ∀ m, m ≠ 150 → (inc ahsokaSet emptyInv 150) m = emptyInv m :=
  inc_alt_stores_under_alt ahsokaSet emptyInv 150 (by decide)

-- Completion statistics (C4, C5) --------------------------------------------

/-- The global card-filter state. -/
structure Filters where
  aspect : List String
  rarity : List String
  type : List String
deriving Repr

def noFilters : Filters := { aspect := [], rarity := [], type := [] }

/-- `passesAllFilters(card)`. -/
def passesAllFilters (filters : Filters) (card : Card) : Bool :=
  (if filters.aspect ≠ [] then
     let primaryAspect := match card.Aspects.head? with
       | some a => if a = "" then "NEUTRAL" else a
       | none => "NEUTRAL"
     filters.aspect.contains primaryAspect
   else true) &&
  (if filters.rarity ≠ [] then filters.rarity.contains (card.Rarity.getD "") else true) &&
  (if filters.type ≠ [] then filters.type.contains (card.type.getD "") else true)

/-- One row of `filteredAllRows`. -/
structure Row where
  Number : Nat
  Name : String
  Subtitle : Option String
  type : Option String
  Rarity : Option String
  Price : ℚ
  Qty : Nat
  Max : Nat
  Needed : Nat
deriving DecidableEq, Repr

/-- `nums.reduce((sum, n) => sum + (inventory[n] || 0), 0)` over
`baseToAll.get(baseNum) || [baseNum]`: quantity aggregated across the base
card and all its alt printings. -/
def haveAcrossPrints (ps : ParsedSet) (inv : Inventory) (baseNum : Nat) : Nat :=
  ((jsMapGet ps.baseToAll baseNum).getD [baseNum]).foldl
    (fun sum n => sum + getQ inv n) 0

/-- The row `filteredAllRows` builds for one base card
(`Needed = Math.max(0, max - have)` is `Nat` subtraction). -/
def rowFor (ps : ParsedSet) (inv : Inventory) (baseCard : Card) : Row :=
  { Number := baseCard.Number, Name := baseCard.Name,
    Subtitle := baseCard.Subtitle, type := baseCard.type,
    Rarity := baseCard.Rarity, Price := baseCard.MarketPrice,
    Qty := haveAcrossPrints ps inv baseCard.Number,
    Max := quotaForType baseCard.type,
    Needed := quotaForType baseCard.type - haveAcrossPrints ps inv baseCard.Number }

/-- `filteredAllRows`: filter, build rows, sort ascending by `Number`. -/
def filteredAllRows (ps : ParsedSet) (inv : Inventory) (filters : Filters) : List Row :=
  List.insertionSort (fun a b => a.Number ≤ b.Number)
    ((ps.baseCards.filter (passesAllFilters filters)).map (rowFor ps inv))

/-- One row of `filteredMissingRows`. -/
structure MissingRow where
  Number : Nat
  Name : String
  type : Option String
  Have : Nat
  Max : Nat
  Needed : Nat
  Price : ℚ
  RowTotal : ℚ
deriving DecidableEq, Repr

/-- `filteredMissingRows`: rows with `Qty < Max`, with `RowTotal = Needed * Price`. -/
def filteredMissingRows (ps : ParsedSet) (inv : Inventory) (filters : Filters) :
    List MissingRow :=
  ((filteredAllRows ps inv filters).filter (fun r => r.Qty < r.Max)).map
    (fun r => { Number := r.Number, Name := r.Name, type := r.type,
                Have := r.Qty, Max := r.Max, Needed := r.Needed,
                Price := r.Price, RowTotal := (r.Needed : ℚ) * r.Price })

/-- The completion counters of `inventoryStatus`. -/
structure InvStatus where
  complete : Nat
  incomplete : Nat
  missing : Nat
  totalCards : Nat
deriving DecidableEq, Repr

/-- One iteration of `inventoryStatus`'s counting loop. -/
def statusStep (s : Nat × Nat × Nat) (r : Row) : Nat × Nat × Nat :=
  if r.Qty ≥ r.Max then (s.1 + 1, s.2.1, s.2.2)
  else if r.Qty > 0 then (s.1, s.2.1 + 1, s.2.2)
  else (s.1, s.2.1, s.2.2 + 1)

/-- `inventoryStatus`: count complete/incomplete/missing over
`filteredAllRows`; `totalCards` is the row count. -/
def inventoryStatus (ps : ParsedSet) (inv : Inventory) (filters : Filters) : InvStatus :=
  { complete := ((filteredAllRows ps inv filters).foldl statusStep (0, 0, 0)).1,
    incomplete := ((filteredAllRows ps inv filters).foldl statusStep (0, 0, 0)).2.1,
    missing := ((filteredAllRows ps inv filters).foldl statusStep (0, 0, 0)).2.2,
    totalCards := (filteredAllRows ps inv filters).length }

lemma statusStep_sum (l : List Row) : ∀ (a b c : Nat),
    (l.foldl statusStep (a, b, c)).1 + (l.foldl statusStep (a, b, c)).2.1 +
      (l.foldl statusStep (a, b, c)).2.2 = a + b + c + l.length := by
  induction l with
  | nil => intro a b c; simp
  | cons r t ih =>
      intro a b c
      simp only [List.foldl_cons, List.length_cons]
      by_cases h1 : r.Qty ≥ r.Max
      · rw [show statusStep (a, b, c) r = (a + 1, b, c) by simp [statusStep, h1]]
        rw [ih]; omega
      · by_cases h2 : r.Qty > 0
        · rw [show statusStep (a, b, c) r = (a, b + 1, c) by simp [statusStep, h1, h2]]
          rw [ih]; omega
        · rw [show statusStep (a, b, c) r = (a, b, c + 1) by simp [statusStep, h1, h2]]
          rw [ih]; omega

/-- C4: for every ledger state and catalog, the completion statistics
partition the considered base cards:
`complete + incomplete + missing = totalCards`. -/
theorem inventoryStatus_partition (ps : ParsedSet) (inv : Inventory) (filters : Filters) :
    (inventoryStatus ps inv filters).complete +
      (inventoryStatus ps inv filters).incomplete +
      (inventoryStatus ps inv filters).missing =
      (inventoryStatus ps inv filters).totalCards := by
  simp only [inventoryStatus]
  rw [statusStep_sum]
  omega

/-- Modelled on the claim's wording for C5: the row `missingList` should
emit for base card `b` — `have` summed across `baseToAll[b.Number]`,
`needed = quota - have`, `lineCost = needed * unitPrice`. -/
def specMissingRow (ps : ParsedSet) (inv : Inventory) (b : Card) : MissingRow :=
  { Number := b.Number, Name := b.Name, type := b.type,
    Have := haveAcrossPrints ps inv b.Number,
    Max := quotaForType b.type,
    Needed := quotaForType b.type - haveAcrossPrints ps inv b.Number,
    Price := b.MarketPrice,
    RowTotal := ((quotaForType b.type - haveAcrossPrints ps inv b.Number : Nat) : ℚ)
      * b.MarketPrice }

/-- The concrete C5 scenario ledger: one copy of base `#3` and one copy of
alt printing `#150`. -/
def scenarioInv : Inventory := setQ (setQ emptyInv 3 1) 150 1

/-- C5: `filteredMissingRows` contains a row exactly for each (filtered)
base card whose quantity aggregated across base and alt printings is below
quota, with `needed = quota - have` and `lineCost = needed * unitPrice`;
and in the concrete scenario (quota 3, base has 1, one alt has 1) the
emitted row has `have = 2`, `needed = 1`. -/
theorem filteredMissingRows_spec (ps : ParsedSet) (inv : Inventory)
    (filters : Filters) (r : MissingRow) :
    (r ∈ filteredMissingRows ps inv filters ↔
      ∃ b ∈ ps.baseCards, passesAllFilters filters b = true ∧
        haveAcrossPrints ps inv b.Number < quotaForType b.type ∧
        r = specMissingRow ps inv b) ∧
    (filteredMissingRows ahsokaSet scenarioInv noFilters).map
      (fun m => (m.Have, m.Max, m.Needed)) = [(2, 3, 1)] := by
  constructor
  · unfold filteredMissingRows
    rw [List.mem_map]
    constructor
    · rintro ⟨row, hrow, rfl⟩
      rw [List.mem_filter] at hrow
      obtain ⟨hmem, hlt⟩ := hrow
      unfold filteredAllRows at hmem
      rw [List.mem_insertionSort, List.mem_map] at hmem
      obtain ⟨b, hb, rfl⟩ := hmem
      rw [List.mem_filter] at hb
      refine ⟨b, hb.1, hb.2, ?_, rfl⟩
      simpa [rowFor] using hlt
    · rintro ⟨b, hb, hpass, hlt, rfl⟩
      refine ⟨rowFor ps inv b, List.mem_filter.mpr ⟨?_, ?_⟩, rfl⟩
      · unfold filteredAllRows
        rw [List.mem_insertionSort, List.mem_map]
        exact ⟨b, List.mem_filter.mpr ⟨hb, hpass⟩, rfl⟩
      · simpa [rowFor] using hlt
  · rfl

-- Card normalizer (C6) ------------------------------------------------------

/-- `keyNameType(c)`: the dedupe/grouping key
`` name.trim().lowercase|subtitle.trim().lowercase|type.trim().lowercase ``. -/
def keyNameType (c : Card) : String :=
  strLower (strTrim c.Name) ++ "|" ++
    strLower (strTrim (c.Subtitle.getD "")) ++ "|" ++
    strLower (strTrim (c.type.getD ""))

/-- `(c.Aspects?.length ?? 0) > 0`. -/
def hasAspects (c : Card) : Bool := !c.Aspects.isEmpty

/-- The dedupe sort comparator of `parseAndCache`
(`hasB - hasA || a.Number - b.Number`) as a `≤`-relation. -/
def aspectNumLE (a b : Card) : Prop :=
  (hasAspects b = false ∧ hasAspects a = true) ∨
    (hasAspects a = hasAspects b ∧ a.Number ≤ b.Number)

instance : DecidableRel aspectNumLE := fun a b => by
  unfold aspectNumLE
  infer_instance

/-- Keep the first record per `Number` (the `byNum` map of `parseAndCache`,
whose values come out in first-insertion order). -/
def keepFirstByNumber (seen : List Nat) : List Card → List Card
  | [] => []
  | c :: rest =>
      if c.Number ∈ seen then keepFirstByNumber seen rest
      else c :: keepFirstByNumber (c.Number :: seen) rest

/-- Step 1 of `parseAndCache`: stable-sort by (has-aspects desc, number asc),
keep the first record per number, then sort ascending by number —
the `allCards` list. -/
def dedupeByNumber (cards : List Card) : List Card :=
  List.insertionSort (fun a b => a.Number ≤ b.Number)
    (keepFirstByNumber [] (List.insertionSort aspectNumLE cards))

/-- The `byKey.set` update of `baseOnly`: replace the entry for the card's
key when the new card has a strictly lower number, keeping map order. -/
def baseOnlyUpd (m : List (String × Card)) (c : Card) : List (String × Card) :=
  if m.any (fun e => e.1 = keyNameType c) then
    m.map (fun e => if e.1 = keyNameType c ∧ c.Number < e.2.Number then (e.1, c) else e)
  else m ++ [(keyNameType c, c)]

/-- `baseOnly(cards)`: lowest-numbered card per `(name, subtitle, type)`
key, sorted ascending by number. -/
def baseOnly (cards : List Card) : List Card :=
  List.insertionSort (fun a b => a.Number ≤ b.Number)
    ((cards.foldl baseOnlyUpd []).map (fun e => e.2))

/-- The `arr.push` update of `buildAltMaps`'s `ntToNums` map. -/
def pushNum (m : List (String × List Nat)) (k : String) (n : Nat) :
    List (String × List Nat) :=
  if m.any (fun e => e.1 = k) then
    m.map (fun e => if e.1 = k then (e.1, e.2 ++ [n]) else e)
  else m ++ [(k, [n])]

/-- `ntToNums`: all card numbers grouped by `keyNameType`, keys in
first-encounter order. -/
def ntToNums (cards : List Card) : List (String × List Nat) :=
  cards.foldl (fun m c => pushNum m (keyNameType c) c.Number) []

/-- `ntToNums` after the in-place `arr.sort((a,b) => a - b)` applied to
every group's number list. -/
def sortedGroups (cards : List Card) : List (String × List Nat) :=
  (ntToNums cards).map (fun e => (e.1, List.insertionSort (fun a b => a ≤ b) e.2))

/-- `buildAltMaps(allCards)`: per-group ascending number lists; `nums[0]`
is the base; every other member maps to the base in `altToBase`. -/
def buildAltMaps (cards : List Card) : List (Nat × List Nat) × List (Nat × Nat) :=
  ((sortedGroups cards).map (fun e => (e.2.headD 0, e.2)),
   (sortedGroups cards).flatMap
     (fun e => (e.2.filter (fun n => n ≠ e.2.headD 0)).map
       (fun n => (n, e.2.headD 0))))

/-- The pure tail of `parseAndCache` (after field mapping): the normalizer. -/
def parseSet (key : String) (cards : List Card) : ParsedSet :=
  { key := key, allCards := dedupeByNumber cards,
    baseCards := baseOnly (dedupeByNumber cards),
    baseToAll := (buildAltMaps (dedupeByNumber cards)).1,
    altToBase := (buildAltMaps (dedupeByNumber cards)).2 }

lemma keepFirstByNumber_nodup : ∀ (l : List Card) (seen : List Nat),
    ((keepFirstByNumber seen l).map Card.Number).Nodup ∧
    ∀ c ∈ keepFirstByNumber seen l, c.Number ∉ seen := by
  intro l
  induction l with
  | nil =>
      intro seen
      exact ⟨List.nodup_nil, by intro c hc; cases hc⟩
  | cons a t ih =>
      intro seen
      unfold keepFirstByNumber
      split
      · exact ih seen
      · rename_i hnot
        obtain ⟨ihn, ihs⟩ := ih (a.Number :: seen)
        refine ⟨?_, ?_⟩
        · simp only [List.map_cons, List.nodup_cons]
          refine ⟨?_, ihn⟩
          intro hmem
          obtain ⟨c, hc, hcn⟩ := List.mem_map.mp hmem
          exact ihs c hc (hcn ▸ List.mem_cons_self a.Number seen)
        · intro c hc
          rcases List.mem_cons.mp hc with rfl | hct
          · exact hnot
          · intro hcs
            exact ihs c hct (List.mem_cons_of_mem _ hcs)

lemma dedupeByNumber_nodup (cards : List Card) :
    ((dedupeByNumber cards).map Card.Number).Nodup := by
  unfold dedupeByNumber
  have hperm := List.perm_insertionSort (fun a b : Card => a.Number ≤ b.Number)
    (keepFirstByNumber [] (List.insertionSort aspectNumLE cards))
  exact ((hperm.map Card.Number).nodup_iff).mpr
    (keepFirstByNumber_nodup (List.insertionSort aspectNumLE cards) []).1

/-- Invariant of `ntToNums`'s fold: after processing the cards `p`,
the map `m` has unique keys, each entry holds exactly the numbers of the
processed cards with that key (in order), and a key is present iff some
processed card has it. -/
def NtGood (p : List Card) (m : List (String × List Nat)) : Prop :=
  (m.map Prod.fst).Nodup ∧
  (∀ e ∈ m, e.2 = (p.filter (fun c => keyNameType c = e.1)).map Card.Number) ∧
  (∀ k, (∃ e ∈ m, e.1 = k) ↔ ∃ c ∈ p, keyNameType c = k)

lemma ntGood_nil : NtGood [] [] := by
  refine ⟨List.nodup_nil, ?_, ?_⟩
  · intro e he; cases he
  · intro k
    constructor
    · rintro ⟨e, he, _⟩; cases he
    · rintro ⟨c, hc, _⟩; cases hc

lemma ntGood_step (p : List Card) (m : List (String × List Nat)) (c : Card)
    (h : NtGood p m) : NtGood (p ++ [c]) (pushNum m (keyNameType c) c.Number) := by
  obtain ⟨hnd, hent, hkey⟩ := h
  unfold pushNum
  split
  · rename_i hhas
    rw [List.any_eq_true] at hhas
    obtain ⟨e0, he0, he0k⟩ := hhas
    rw [decide_eq_true_eq] at he0k
    set f := fun e : String × List Nat =>
      if e.1 = keyNameType c then (e.1, e.2 ++ [c.Number]) else e with hf
    have hfst : ∀ e : String × List Nat, (f e).1 = e.1 := by
      intro e; rw [hf]; dsimp only; split <;> rfl
    have hkeys : (m.map f).map Prod.fst = m.map Prod.fst := by
      rw [List.map_map]
      apply List.map_congr_left
      intro e _
      exact hfst e
    refine ⟨by rw [hkeys]; exact hnd, ?_, ?_⟩
    · intro e' he'
      obtain ⟨e, he, rfl⟩ := List.mem_map.mp he'
      by_cases hek : e.1 = keyNameType c
      · have hfe : f e = (e.1, e.2 ++ [c.Number]) := by
          rw [hf]; dsimp only; rw [if_pos hek]
        rw [hfe]
        dsimp only
        rw [List.filter_append]
        have hc1 : [c].filter (fun d => keyNameType d = e.1) = [c] := by
          simp [hek]
        rw [hc1, List.map_append, ← hent e he]
        rfl
      · have hfe : f e = e := by
          rw [hf]; dsimp only; rw [if_neg hek]
        rw [hfe]
        rw [List.filter_append]
        have hc1 : [c].filter (fun d => keyNameType d = e.1) = [] := by
          rw [List.filter_eq_nil_iff]
          intro d hd
          have hd2 : d = c := by simpa using hd
          subst hd2
          simp only [decide_eq_true_eq]
          intro hkc
          exact hek hkc.symm
        rw [hc1, List.append_nil]
        exact hent e he
    · intro k
      constructor
      · rintro ⟨e', he', hek⟩
        obtain ⟨e, he, rfl⟩ := List.mem_map.mp he'
        rw [hfst e] at hek
        obtain ⟨c', hc', hck⟩ := (hkey k).mp ⟨e, he, hek⟩
        exact ⟨c', List.mem_append_left _ hc', hck⟩
      · rintro ⟨c', hc', hck⟩
        rcases List.mem_append.mp hc' with hp | hcc
        · obtain ⟨e, he, hek⟩ := (hkey k).mpr ⟨c', hp, hck⟩
          exact ⟨f e, List.mem_map_of_mem f he, by rw [hfst e]; exact hek⟩
        · have hcec : c' = c := by simpa using hcc
          subst hcec
          refine ⟨f e0, List.mem_map_of_mem f he0, ?_⟩
          rw [hfst e0, he0k]
          exact hck
  · rename_i hhas
    have hno : ∀ e ∈ m, ¬(e.1 = keyNameType c) := by
      intro e he hek
      exact hhas (List.any_eq_true.mpr ⟨e, he, by simp [hek]⟩)
    refine ⟨?_, ?_, ?_⟩
    · rw [List.map_append]
      rw [List.nodup_append]
      refine ⟨hnd, List.nodup_singleton _, ?_⟩
      intro a ha ha'
      have ha2 : a = keyNameType c := by simpa using ha'
      subst ha2
      obtain ⟨e, he, hek⟩ := List.mem_map.mp ha
      exact hno e he hek
    · intro e he
      rcases List.mem_append.mp he with hm | hs
      · rw [List.filter_append]
        have hc1 : [c].filter (fun d => keyNameType d = e.1) = [] := by
          rw [List.filter_eq_nil_iff]
          intro d hd
          have hd2 : d = c := by simpa using hd
          subst hd2
          simp only [decide_eq_true_eq]
          intro hkc
          exact hno e hm hkc.symm
        rw [hc1, List.append_nil]
        exact hent e hm
      · have he2 : e = (keyNameType c, [c.Number]) := by simpa using hs
        subst he2
        rw [List.filter_append]
        have hp0 : p.filter (fun d => keyNameType d = keyNameType c) = [] := by
          rw [List.filter_eq_nil_iff]
          intro d hd hdk
          rw [decide_eq_true_eq] at hdk
          obtain ⟨e', he', hek⟩ := (hkey (keyNameType c)).mpr ⟨d, hd, hdk⟩
          exact hno e' he' hek
        have hc1 : [c].filter (fun d => keyNameType d = keyNameType c) = [c] := by
          simp
        rw [hp0, hc1]
        rfl
    · intro k
      constructor
      · rintro ⟨e, he, hek⟩
        rcases List.mem_append.mp he with hm | hs
        · obtain ⟨c', hc', hck⟩ := (hkey k).mp ⟨e, hm, hek⟩
          exact ⟨c', List.mem_append_left _ hc', hck⟩
        · have he2 : e = (keyNameType c, [c.Number]) := by simpa using hs
          subst he2
          exact ⟨c, List.mem_append_right _ (List.mem_singleton_self c), hek⟩
      · rintro ⟨c', hc', hck⟩
        rcases List.mem_append.mp hc' with hp | hcc
        · obtain ⟨e, he, hek⟩ := (hkey k).mpr ⟨c', hp, hck⟩
          exact ⟨e, List.mem_append_left _ he, hek⟩
        · have hcec : c' = c := by simpa using hcc
          refine ⟨(keyNameType c, [c.Number]),
            List.mem_append_right _ (List.mem_singleton_self _), ?_⟩
          show keyNameType c = k
          rw [← hcec]
          exact hck

lemma ntGood_fold : ∀ (l p : List Card) (m : List (String × List Nat)),
    NtGood p m →
    NtGood (p ++ l) (l.foldl (fun m c => pushNum m (keyNameType c) c.Number) m) := by
  intro l
  induction l with
  | nil =>
      intro p m h
      simpa using h
  | cons a t ih =>
      intro p m h
      rw [List.foldl_cons]
      have := ih (p ++ [a]) _ (ntGood_step p m a h)
      rwa [List.append_assoc, List.singleton_append] at this

lemma ntGood_ntToNums (cards : List Card) : NtGood cards (ntToNums cards) := by
  have := ntGood_fold cards [] [] ntGood_nil
  simpa [ntToNums] using this

/-- Invariant of `baseOnly`'s fold: the map keeps, per key, the
lowest-numbered processed card with that key. -/
def BaseGood (p : List Card) (m : List (String × Card)) : Prop :=
  (m.map Prod.fst).Nodup ∧
  (∀ e ∈ m, e.1 = keyNameType e.2 ∧ e.2 ∈ p ∧
    ∀ c ∈ p, keyNameType c = e.1 → e.2.Number ≤ c.Number) ∧
  (∀ k, (∃ e ∈ m, e.1 = k) ↔ ∃ c ∈ p, keyNameType c = k)

lemma baseGood_nil : BaseGood [] [] := by
  refine ⟨List.nodup_nil, ?_, ?_⟩
  · intro e he; cases he
  · intro k
    constructor
    · rintro ⟨e, he, _⟩; cases he
    · rintro ⟨c, hc, _⟩; cases hc

lemma baseGood_step (p : List Card) (m : List (String × Card)) (c : Card)
    (h : BaseGood p m) : BaseGood (p ++ [c]) (baseOnlyUpd m c) := by
  obtain ⟨hnd, hent, hkey⟩ := h
  unfold baseOnlyUpd
  split
  · rename_i hhas
    rw [List.any_eq_true] at hhas
    obtain ⟨e0, he0, he0k⟩ := hhas
    rw [decide_eq_true_eq] at he0k
    set f := fun e : String × Card =>
      if e.1 = keyNameType c ∧ c.Number < e.2.Number then (e.1, c) else e with hf
    have hfst : ∀ e : String × Card, (f e).1 = e.1 := by
      intro e; rw [hf]; dsimp only; split <;> rfl
    have hkeys : (m.map f).map Prod.fst = m.map Prod.fst := by
      rw [List.map_map]
      apply List.map_congr_left
      intro e _
      exact hfst e
    refine ⟨by rw [hkeys]; exact hnd, ?_, ?_⟩
    · intro e' he'
      obtain ⟨e, he, rfl⟩ := List.mem_map.mp he'
      obtain ⟨hk1, hmem1, hmin1⟩ := hent e he
      by_cases hcond : e.1 = keyNameType c ∧ c.Number < e.2.Number
      · have hfe : f e = (e.1, c) := by
          rw [hf]; dsimp only; rw [if_pos hcond]
        rw [hfe]
        refine ⟨hcond.1, List.mem_append_right _ (List.mem_singleton_self c), ?_⟩
        intro d hd hdk
        show c.Number ≤ d.Number
        rcases List.mem_append.mp hd with hdp | hdc
        · exact le_of_lt (lt_of_lt_of_le hcond.2 (hmin1 d hdp hdk))
        · have hdc2 : d = c := by simpa using hdc
          rw [hdc2]
      · have hfe : f e = e := by
          rw [hf]; dsimp only; rw [if_neg hcond]
        rw [hfe]
        refine ⟨hk1, List.mem_append_left _ hmem1, ?_⟩
        intro d hd hdk
        rcases List.mem_append.mp hd with hdp | hdc
        · exact hmin1 d hdp hdk
        · have hdc2 : d = c := by simpa using hdc
          rw [hdc2] at hdk
          have hnlt : ¬ c.Number < e.2.Number := fun hlt => hcond ⟨hdk.symm, hlt⟩
          rw [hdc2]
          omega
    · intro k
      constructor
      · rintro ⟨e', he', hek⟩
        obtain ⟨e, he, rfl⟩ := List.mem_map.mp he'
        rw [hfst e] at hek
        obtain ⟨c', hc', hck⟩ := (hkey k).mp ⟨e, he, hek⟩
        exact ⟨c', List.mem_append_left _ hc', hck⟩
      · rintro ⟨c', hc', hck⟩
        rcases List.mem_append.mp hc' with hp | hcc
        · obtain ⟨e, he, hek⟩ := (hkey k).mpr ⟨c', hp, hck⟩
          exact ⟨f e, List.mem_map_of_mem f he, by rw [hfst e]; exact hek⟩
        · have hcec : c' = c := by simpa using hcc
          refine ⟨f e0, List.mem_map_of_mem f he0, ?_⟩
          rw [hfst e0, he0k, ← hcec]
          exact hck
  · rename_i hhas
    have hno : ∀ e ∈ m, ¬(e.1 = keyNameType c) := by
      intro e he hek
      exact hhas (List.any_eq_true.mpr ⟨e, he, by simp [hek]⟩)
    refine ⟨?_, ?_, ?_⟩
    · rw [List.map_append, List.nodup_append]
      refine ⟨hnd, List.nodup_singleton _, ?_⟩
      intro a ha ha'
      have ha2 : a = keyNameType c := by simpa using ha'
      subst ha2
      obtain ⟨e, he, hek⟩ := List.mem_map.mp ha
      exact hno e he hek
    · intro e he
      rcases List.mem_append.mp he with hm | hs
      · obtain ⟨hk1, hmem1, hmin1⟩ := hent e hm
        refine ⟨hk1, List.mem_append_left _ hmem1, ?_⟩
        intro d hd hdk
        rcases List.mem_append.mp hd with hdp | hdc
        · exact hmin1 d hdp hdk
        · have hdc2 : d = c := by simpa using hdc
          rw [hdc2] at hdk
          exact absurd hdk.symm (hno e hm)
      · have he2 : e = (keyNameType c, c) := by simpa using hs
        subst he2
        refine ⟨rfl, List.mem_append_right _ (List.mem_singleton_self c), ?_⟩
        intro d hd hdk
        rcases List.mem_append.mp hd with hdp | hdc
        · exfalso
          obtain ⟨e', he', hek⟩ := (hkey (keyNameType c)).mpr ⟨d, hdp, hdk⟩
          exact hno e' he' hek
        · have hdc2 : d = c := by simpa using hdc
          rw [hdc2]
    · intro k
      constructor
      · rintro ⟨e, he, hek⟩
        rcases List.mem_append.mp he with hm | hs
        · obtain ⟨c', hc', hck⟩ := (hkey k).mp ⟨e, hm, hek⟩
          exact ⟨c', List.mem_append_left _ hc', hck⟩
        · have he2 : e = (keyNameType c, c) := by simpa using hs
          subst he2
          exact ⟨c, List.mem_append_right _ (List.mem_singleton_self c), hek⟩
      · rintro ⟨c', hc', hck⟩
        rcases List.mem_append.mp hc' with hp | hcc
        · obtain ⟨e, he, hek⟩ := (hkey k).mpr ⟨c', hp, hck⟩
          exact ⟨e, List.mem_append_left _ he, hek⟩
        · have hcec : c' = c := by simpa using hcc
          refine ⟨(keyNameType c, c),
            List.mem_append_right _ (List.mem_singleton_self _), ?_⟩
          show keyNameType c = k
          rw [← hcec]
          exact hck

lemma baseGood_fold : ∀ (l p : List Card) (m : List (String × Card)),
    BaseGood p m → BaseGood (p ++ l) (l.foldl baseOnlyUpd m) := by
  intro l
  induction l with
  | nil =>
      intro p m h
      simpa using h
  | cons a t ih =>
      intro p m h
      rw [List.foldl_cons]
      have := ih (p ++ [a]) _ (baseGood_step p m a h)
      rwa [List.append_assoc, List.singleton_append] at this

lemma baseGood_baseOnly (cards : List Card) :
    BaseGood cards (cards.foldl baseOnlyUpd []) := by
  have := baseGood_fold cards [] [] baseGood_nil
  simpa using this

lemma baseOnly_min (cards : List Card) :
    ∀ b ∈ baseOnly cards, b ∈ cards ∧
      ∀ c ∈ cards, keyNameType c = keyNameType b → b.Number ≤ c.Number := by
  intro b hb
  unfold baseOnly at hb
  rw [List.mem_insertionSort, List.mem_map] at hb
  obtain ⟨e, he, rfl⟩ := hb
  obtain ⟨hk, hmem, hmin⟩ := (baseGood_baseOnly cards).2.1 e he
  exact ⟨hmem, fun c hc hck => hmin c hc (by rw [hk]; exact hck)⟩

lemma sorted_headD_le {l : List Nat}
    (h : List.Sorted (fun a b : Nat => a ≤ b) l) (x : Nat) (hx : x ∈ l) :
    l.headD 0 ≤ x := by
  cases l with
  | nil => cases hx
  | cons a t =>
      rcases List.mem_cons.mp hx with rfl | hxt
      · exact le_refl _
      · exact List.rel_of_sorted_cons h x hxt

lemma headD_mem {l : List Nat} (h : l ≠ []) : l.headD 0 ∈ l := by
  cases l with
  | nil => exact absurd rfl h
  | cons a t => exact List.mem_cons_self a t

lemma sortedGroups_char (cards : List Card) (g : String × List Nat)
    (hg : g ∈ sortedGroups cards) :
    g.2 = List.insertionSort (fun a b : Nat => a ≤ b)
      ((cards.filter (fun c => keyNameType c = g.1)).map Card.Number) := by
  unfold sortedGroups at hg
  obtain ⟨e, he, rfl⟩ := List.mem_map.mp hg
  have hchar := (ntGood_ntToNums cards).2.1 e he
  dsimp only
  rw [hchar]

lemma altToBase_mem (cards : List Card) (k v : Nat)
    (hmem : (k, v) ∈ (buildAltMaps cards).2) :
    ∃ g ∈ sortedGroups cards, k ∈ g.2 ∧ v = g.2.headD 0 ∧ k ≠ g.2.headD 0 := by
  unfold buildAltMaps at hmem
  rw [List.mem_flatMap] at hmem
  obtain ⟨g, hg, hgm⟩ := hmem
  rw [List.mem_map] at hgm
  obtain ⟨n, hn, heq⟩ := hgm
  rw [List.mem_filter] at hn
  obtain ⟨hn1, hn2⟩ := hn
  rw [decide_eq_true_eq] at hn2
  cases heq
  exact ⟨g, hg, hn1, rfl, hn2⟩

/-- C6: the normalizer's alt-map invariant, for every input list of cards:
every base card is a lowest-numbered member of its `(name,subtitle,type)`
group; every `altToBase` entry's key appears in a `baseToAll` entry's list
and never maps to itself; a base card's own number is never an `altToBase`
key; and a group of size 1 contributes no `altToBase` entries. -/
theorem normalizer_altMap_invariant (cards : List Card) :
    (∀ b ∈ baseOnly (dedupeByNumber cards), b ∈ dedupeByNumber cards ∧
      ∀ c ∈ dedupeByNumber cards, keyNameType c = keyNameType b →
        b.Number ≤ c.Number) ∧
    (∀ e ∈ (buildAltMaps (dedupeByNumber cards)).2,
      (∃ g ∈ (buildAltMaps (dedupeByNumber cards)).1, e.1 ∈ g.2) ∧ e.2 ≠ e.1) ∧
    (∀ b ∈ baseOnly (dedupeByNumber cards), ∀ v,
      (b.Number, v) ∉ (buildAltMaps (dedupeByNumber cards)).2) ∧
    (∀ c ∈ dedupeByNumber cards,
      ((dedupeByNumber cards).filter
        (fun d => keyNameType d = keyNameType c)).length = 1 →
      ∀ v, (c.Number, v) ∉ (buildAltMaps (dedupeByNumber cards)).2) := by
  refine ⟨baseOnly_min (dedupeByNumber cards), ?_, ?_, ?_⟩
  · -- every altToBase entry: key in a baseToAll list, value ≠ key
    intro e he
    obtain ⟨k, v⟩ := e
    obtain ⟨g, hg, hkin, hv, hkne⟩ := altToBase_mem _ k v he
    refine ⟨⟨(g.2.headD 0, g.2), ?_, hkin⟩, ?_⟩
    · unfold buildAltMaps
      exact List.mem_map.mpr ⟨g, hg, rfl⟩
    · show v ≠ k
      rw [hv]
      exact fun h => hkne h.symm
  · -- a base card's number is never an altToBase key
    intro b hb v hmem
    obtain ⟨hbmem, hbmin⟩ := baseOnly_min (dedupeByNumber cards) b hb
    obtain ⟨g, hg, hkin, hv, hkne⟩ := altToBase_mem _ b.Number v hmem
    have hchar := sortedGroups_char _ g hg
    have hkin0 := hkin
    rw [hchar, List.mem_insertionSort] at hkin
    obtain ⟨d, hd, hdn⟩ := List.mem_map.mp hkin
    rw [List.mem_filter, decide_eq_true_eq] at hd
    obtain ⟨hdall, hdkey⟩ := hd
    have hdb : d = b :=
      List.inj_on_of_nodup_map (dedupeByNumber_nodup cards) hdall hbmem hdn
    rw [hdb] at hdkey
    have hsorted : List.Sorted (fun a b : Nat => a ≤ b) g.2 := by
      rw [hchar]
      exact List.sorted_insertionSort _ _
    have hglast : g.2.headD 0 ≤ b.Number := sorted_headD_le hsorted b.Number hkin0
    have hgne : g.2 ≠ [] := by
      intro h0
      rw [h0] at hkin0
      cases hkin0
    have hh0 : g.2.headD 0 ∈ g.2 := headD_mem hgne
    rw [hchar, List.mem_insertionSort] at hh0
    obtain ⟨d0, hd0, hd0n⟩ := List.mem_map.mp hh0
    rw [← hchar] at hd0n
    rw [List.mem_filter, decide_eq_true_eq] at hd0
    obtain ⟨hd0all, hd0key⟩ := hd0
    have hfirst : b.Number ≤ g.2.headD 0 := by
      rw [← hd0n]
      exact hbmin d0 hd0all (by rw [hd0key, ← hdkey])
    exact hkne (by omega)
  · -- a singleton group contributes no altToBase entries
    intro c hc hlen v hmem
    obtain ⟨g, hg, hkin, hv, hkne⟩ := altToBase_mem _ c.Number v hmem
    have hchar := sortedGroups_char _ g hg
    have hkin0 := hkin
    rw [hchar, List.mem_insertionSort] at hkin
    obtain ⟨d, hd, hdn⟩ := List.mem_map.mp hkin
    rw [List.mem_filter, decide_eq_true_eq] at hd
    obtain ⟨hdall, hdkey⟩ := hd
    have hdb : d = c :=
      List.inj_on_of_nodup_map (dedupeByNumber_nodup cards) hdall hc hdn
    rw [hdb] at hdkey
    have hfeq : (dedupeByNumber cards).filter (fun d' => keyNameType d' = g.1) =
        (dedupeByNumber cards).filter
          (fun d' => keyNameType d' = keyNameType c) := by
      apply List.filter_congr
      intro x _
      rw [hdkey]
    have hlen2 : g.2.length = 1 := by
      rw [hchar, List.length_insertionSort, List.length_map, hfeq, hlen]
    obtain ⟨a, ha⟩ := List.length_eq_one.mp hlen2
    rw [ha] at hkin0 hkne
    have hca : c.Number = a := by simpa using hkin0
    exact hkne (by simpa using hca)

-- Import (C9, C10) ----------------------------------------------------------

inductive ImportMode
  | merge
  | replace
deriving DecidableEq, Repr

/-- The app state `applyImport` touches: the persisted per-set ledgers
(`localStorage` keys `inv:<key>`), the active set key, the active set's
in-memory inventory, and the active set's `cardsAll` list. -/
structure AppState where
  stores : String → Inventory
  activeKey : String
  inventory : Inventory
  cardsAll : List Card

/-- The per-entry quota `applyImport` recomputes:
`quotaForType(cardsAll.find(c => c.Number === baseNumber && c.Set === key)?.Type)`
— note `cardsAll` is the **active** set's card list, so the lookup misses
(and the quota defaults to 3) for other sets and for unknown numbers. -/
def importQuota (cardsAll : List Card) (key : String) (baseNumber : Nat) : Nat :=
  quotaForType ((cardsAll.find? (fun c => c.Number = baseNumber ∧ c.Set = key)).bind
    Card.type)

/-- The per-entry update inside `applyImport`'s inner loop. -/
def importStep (mode : ImportMode) (cardsAll : List Card) (key : String)
    (inv : Inventory) (entry : Nat × Nat) : Inventory :=
  if (if mode = ImportMode.merge
      then min (entry.2 + getQ inv entry.1) (importQuota cardsAll key entry.1)
      else min entry.2 (importQuota cardsAll key entry.1)) > 0
  then setQ inv entry.1
    (if mode = ImportMode.merge
      then min (entry.2 + getQ inv entry.1) (importQuota cardsAll key entry.1)
      else min entry.2 (importQuota cardsAll key entry.1))
  else if getQ inv entry.1 ≠ 0 then delQ inv entry.1 else inv

/-- One iteration of `applyImport`'s outer per-set loop (the `continue`
guard, the per-set fold, `writeSetInv` with `pruneZeros`, and the active
in-memory update). -/
def applySetImport (mode : ImportMode) (st : AppState) (key : String)
    (importedInv : List (Nat × Nat)) : AppState :=
  if key = "" ∨ importedInv = [] then st
  else
    { st with
      stores := fun k => if k = key
        then pruneZeros (importedInv.foldl (importStep mode st.cardsAll key)
          (if mode = ImportMode.merge then st.stores key else emptyInv))
        else st.stores k,
      inventory := if key = st.activeKey
        then pruneZeros (importedInv.foldl (importStep mode st.cardsAll key)
          (if mode = ImportMode.merge then st.stores key else emptyInv))
        else st.inventory }

/-- `applyImport(mode)` over the parsed import structure. -/
def applyImport (mode : ImportMode)
    (importData : List (String × List (Nat × Nat))) (st : AppState) : AppState :=
  importData.foldl (fun st e => applySetImport mode st e.1 e.2) st

lemma applySetImport_cardsAll (mode : ImportMode) (st : AppState)
    (key : String) (inv : List (Nat × Nat)) :
    (applySetImport mode st key inv).cardsAll = st.cardsAll := by
  unfold applySetImport
  split <;> rfl

lemma applySetImport_activeKey (mode : ImportMode) (st : AppState)
    (key : String) (inv : List (Nat × Nat)) :
    (applySetImport mode st key inv).activeKey = st.activeKey := by
  unfold applySetImport
  split <;> rfl

lemma applySetImport_stores_other (mode : ImportMode) (st : AppState)
    (key : String) (inv : List (Nat × Nat)) (k : String) (hne : ¬(k = key)) :
    (applySetImport mode st key inv).stores k = st.stores k := by
  unfold applySetImport
  split
  · rfl
  · dsimp only
    rw [if_neg hne]

lemma applySetImport_inventory_other (mode : ImportMode) (st : AppState)
    (key : String) (inv : List (Nat × Nat)) (hne : ¬(key = st.activeKey)) :
    (applySetImport mode st key inv).inventory = st.inventory := by
  unfold applySetImport
  split
  · rfl
  · simp [hne]

lemma applyImport_cons (mode : ImportMode) (e : String × List (Nat × Nat))
    (t : List (String × List (Nat × Nat))) (st : AppState) :
    applyImport mode (e :: t) st =
      applyImport mode t (applySetImport mode st e.1 e.2) := by
  unfold applyImport
  rw [List.foldl_cons]

/-- C10: `applyImport` leaves every set not mentioned in the import data
(or mapped to an empty inventory) untouched: its persisted ledger is not
written, the active key is unchanged, and when that set is the active one
its in-memory inventory is unchanged too. -/
theorem applyImport_frame (mode : ImportMode)
    (importData : List (String × List (Nat × Nat))) (st : AppState) (k : String)
    (hk : ∀ e ∈ importData, e.1 = k → e.2 = []) :
    (applyImport mode importData st).stores k = st.stores k ∧
    (applyImport mode importData st).activeKey = st.activeKey ∧
    (k = st.activeKey → (applyImport mode importData st).inventory = st.inventory) := by
  induction importData generalizing st with
  | nil => exact ⟨rfl, rfl, fun _ => rfl⟩
  | cons e t ih =>
      rw [applyImport_cons]
      have hstep_stores : (applySetImport mode st e.1 e.2).stores k = st.stores k := by
        by_cases hek : e.1 = k
        · have h2 := hk e (List.mem_cons_self e t) hek
          unfold applySetImport
          rw [if_pos (Or.inr h2)]
        · exact applySetImport_stores_other mode st e.1 e.2 k (fun h => hek h.symm)
      have hstep_active := applySetImport_activeKey mode st e.1 e.2
      have hstep_inv : k = st.activeKey →
          (applySetImport mode st e.1 e.2).inventory = st.inventory := by
        intro hka
        by_cases hek : e.1 = k
        · have h2 := hk e (List.mem_cons_self e t) hek
          unfold applySetImport
          rw [if_pos (Or.inr h2)]
        · exact applySetImport_inventory_other mode st e.1 e.2
            (by rw [← hka]; exact hek)
      obtain ⟨ih1, ih2, ih3⟩ := ih (applySetImport mode st e.1 e.2)
        (fun e' he' => hk e' (List.mem_cons_of_mem e he'))
      refine ⟨?_, ?_, ?_⟩
      · rw [ih1, hstep_stores]
      · rw [ih2, hstep_active]
      · intro hka
        rw [ih3 (by rw [hstep_active, ← hka]), hstep_inv hka]

def st9 : AppState :=
  { stores := fun _ => emptyInv, activeKey := "A", inventory := emptyInv,
    cardsAll := [sabineUnit] }

/-- Witness for C10: importing only set `X` leaves the (active) set `A`'s
store and in-memory inventory untouched. -/
theorem applyImport_frame_witness :
    (applyImport ImportMode.merge [("X", [(1, 2)])] st9).stores ("A") =
      st9.stores ("A") ∧
    (applyImport ImportMode.merge [("X", [(1, 2)])] st9).activeKey = st9.activeKey ∧
    ("A" = st9.activeKey →
      (applyImport ImportMode.merge [("X", [(1, 2)])] st9).inventory =
        st9.inventory) :=
  applyImport_frame ImportMode.merge [("X", [(1, 2)])] st9 ("A") (by decide)

lemma importStep_other (mode : ImportMode) (cardsAll : List Card) (key : String)
    (inv : Inventory) (entry : Nat × Nat) (m : Nat) (hne : ¬(m = entry.1)) :
    importStep mode cardsAll key inv entry m = inv m := by
  unfold importStep
  split <;> split
  · rw [setQ_apply, if_neg hne]
  · split
    · rw [delQ_apply, if_neg hne]
    · rfl
  · rw [setQ_apply, if_neg hne]
  · split
    · rw [delQ_apply, if_neg hne]
    · rfl

lemma importFold_other (mode : ImportMode) (cardsAll : List Card) (key : String) :
    ∀ (l : List (Nat × Nat)) (inv : Inventory) (m : Nat),
    m ∉ l.map Prod.fst →
    (l.foldl (importStep mode cardsAll key) inv) m = inv m := by
  intro l
  induction l with
  | nil => intro inv m _; rfl
  | cons e t ih =>
      intro inv m hm
      rw [List.foldl_cons]
      simp only [List.map_cons, List.mem_cons, not_or] at hm
      rw [ih _ m hm.2]
      exact importStep_other mode cardsAll key inv e m hm.1

lemma importStep_at_key (mode : ImportMode) (cardsAll : List Card) (key : String)
    (inv inv' : Inventory) (entry : Nat × Nat) (h : inv entry.1 = inv' entry.1) :
    importStep mode cardsAll key inv entry entry.1 =
      importStep mode cardsAll key inv' entry entry.1 := by
  unfold importStep
  have hg : getQ inv entry.1 = getQ inv' entry.1 := by
    unfold getQ
    rw [h]
  rw [hg]
  split <;> split
  · rw [setQ_apply, setQ_apply, if_pos rfl, if_pos rfl]
  · split
    · rw [delQ_apply, delQ_apply, if_pos rfl, if_pos rfl]
    · exact h
  · rw [setQ_apply, setQ_apply, if_pos rfl, if_pos rfl]
  · split
    · rw [delQ_apply, delQ_apply, if_pos rfl, if_pos rfl]
    · exact h

lemma importFold_value (mode : ImportMode) (cardsAll : List Card) (key : String) :
    ∀ (l : List (Nat × Nat)) (inv : Inventory) (n cnt : Nat),
    (l.map Prod.fst).Nodup → (n, cnt) ∈ l →
    (l.foldl (importStep mode cardsAll key) inv) n =
      importStep mode cardsAll key inv (n, cnt) n := by
  intro l
  induction l with
  | nil => intro inv n cnt _ h; cases h
  | cons e t ih =>
      intro inv n cnt hnd hmem
      rw [List.foldl_cons]
      simp only [List.map_cons, List.nodup_cons] at hnd
      rcases List.mem_cons.mp hmem with heq | hmt
      · subst heq
        exact importFold_other mode cardsAll key t _ n (by simpa using hnd.1)
      · have hne : ¬(n = e.1) := by
          intro h
          exact hnd.1 (h ▸ List.mem_map.mpr ⟨(n, cnt), hmt, rfl⟩)
        rw [ih _ n cnt hnd.2 hmt]
        exact importStep_at_key mode cardsAll key _ inv (n, cnt)
          (importStep_other mode cardsAll key inv e n hne)

lemma pruneZeros_importStep (mode : ImportMode) (cardsAll : List Card)
    (key : String) (inv : Inventory) (n cnt : Nat) :
    pruneZeros (importStep mode cardsAll key inv (n, cnt)) n =
      if (if mode = ImportMode.merge
          then min (cnt + getQ inv n) (importQuota cardsAll key n)
          else min cnt (importQuota cardsAll key n)) > 0
      then some (if mode = ImportMode.merge
          then min (cnt + getQ inv n) (importQuota cardsAll key n)
          else min cnt (importQuota cardsAll key n))
      else none := by
  by_cases hpos : (if mode = ImportMode.merge
      then min (cnt + getQ inv n) (importQuota cardsAll key n)
      else min cnt (importQuota cardsAll key n)) > 0
  · have hstep : importStep mode cardsAll key inv (n, cnt) n =
        some (if mode = ImportMode.merge
          then min (cnt + getQ inv n) (importQuota cardsAll key n)
          else min cnt (importQuota cardsAll key n)) := by
      unfold importStep
      dsimp only
      rw [if_pos hpos, setQ_apply, if_pos rfl]
    unfold pruneZeros
    rw [hstep]
  · have hstep : importStep mode cardsAll key inv (n, cnt) n = none ∨
        (importStep mode cardsAll key inv (n, cnt) n = inv n ∧ getQ inv n = 0) := by
      unfold importStep
      dsimp only
      rw [if_neg hpos]
      by_cases hg : getQ inv n ≠ 0
      · left
        rw [if_pos hg, delQ_apply, if_pos rfl]
      · right
        rw [if_neg hg]
        exact ⟨rfl, by omega⟩
    rw [if_neg hpos]
    unfold pruneZeros
    rcases hstep with h | ⟨h, hg⟩
    · rw [h]
    · rw [h]
      cases hinv : inv n with
      | none => rfl
      | some q =>
          have hq0 : q = 0 := by
            unfold getQ at hg
            rw [hinv] at hg
            simpa using hg
          subst hq0
          rfl

lemma applyImport_stores_untouched (mode : ImportMode) :
    ∀ (data : List (String × List (Nat × Nat))) (st : AppState) (k : String),
    (∀ e ∈ data, ¬(e.1 = k)) →
    (applyImport mode data st).stores k = st.stores k := by
  intro data
  induction data with
  | nil => intro st k _; rfl
  | cons e t ih =>
      intro st k h
      rw [applyImport_cons]
      rw [ih _ k (fun e' he' => h e' (List.mem_cons_of_mem e he'))]
      exact applySetImport_stores_other mode st e.1 e.2 k
        (fun hk => h e (List.mem_cons_self e t) hk.symm)

lemma applyImport_at_key (mode : ImportMode) :
    ∀ (data : List (String × List (Nat × Nat))) (st : AppState) (k : String)
      (imp : List (Nat × Nat)),
    (data.map Prod.fst).Nodup → (k, imp) ∈ data → ¬(k = "") → imp ≠ [] →
    (applyImport mode data st).stores k =
      pruneZeros (imp.foldl (importStep mode st.cardsAll k)
        (if mode = ImportMode.merge then st.stores k else emptyInv)) := by
  intro data
  induction data with
  | nil => intro st k imp _ h; cases h
  | cons e t ih =>
      intro st k imp hnd hmem hk himp
      simp only [List.map_cons, List.nodup_cons] at hnd
      rw [applyImport_cons]
      rcases List.mem_cons.mp hmem with heq | hmt
      · subst heq
        rw [applyImport_stores_untouched mode t _ k
          (fun e' he' hk' => hnd.1 (hk' ▸ List.mem_map.mpr ⟨e', he', rfl⟩))]
        unfold applySetImport
        dsimp only
        rw [if_neg (by push_neg; exact ⟨hk, himp⟩)]
        dsimp only
        rw [if_pos rfl]
      · have hek : ¬(e.1 = k) := fun h =>
          hnd.1 (h ▸ List.mem_map.mpr ⟨(k, imp), hmt, rfl⟩)
        rw [ih _ k imp hnd.2 hmt hk himp]
        rw [applySetImport_cardsAll,
          applySetImport_stores_other mode st e.1 e.2 k (fun h => hek h.symm)]

/-- C9 amended: for every imported structure entry, the quantity
`applyImport` stores is capped at `quotaForType` of the card found by
looking up `(number, setKey)` in the **active** set's card list —
defaulting to quota 3 when the lookup misses (numbers absent from the
catalog, and all non-active sets) — with replace storing
`min(imported, quota)`, merge storing `min(imported + existing, quota)`,
and zero results pruned; in particular an entry **can** be created for a
number not present in that set's catalog. -/
theorem applyImport_caps_and_prunes (mode : ImportMode)
    (importData : List (String × List (Nat × Nat))) (st : AppState)
    (k : String) (imp : List (Nat × Nat)) (n cnt : Nat)
    (hnd : (importData.map Prod.fst).Nodup)
    (hmem : (k, imp) ∈ importData) (hk : ¬(k = ""))
    (hindnd : (imp.map Prod.fst).Nodup) (hentry : (n, cnt) ∈ imp) :
    (applyImport mode importData st).stores k n =
      if (if mode = ImportMode.merge
          then min (cnt + getQ (st.stores k) n) (importQuota st.cardsAll k n)
          else min cnt (importQuota st.cardsAll k n)) > 0
      then some (if mode = ImportMode.merge
          then min (cnt + getQ (st.stores k) n) (importQuota st.cardsAll k n)
          else min cnt (importQuota st.cardsAll k n))
      else none := by
  have himp : imp ≠ [] := by
    intro h
    rw [h] at hentry
    cases hentry
  rw [applyImport_at_key mode importData st k imp hnd hmem hk himp]
  have h1 := importFold_value mode st.cardsAll k imp
    (if mode = ImportMode.merge then st.stores k else emptyInv) n cnt hindnd hentry
  have h2 : pruneZeros (imp.foldl (importStep mode st.cardsAll k)
      (if mode = ImportMode.merge then st.stores k else emptyInv)) n =
      pruneZeros (importStep mode st.cardsAll k
        (if mode = ImportMode.merge then st.stores k else emptyInv) (n, cnt)) n := by
    unfold pruneZeros
    rw [h1]
  rw [h2, pruneZeros_importStep]
  cases mode with
  | merge => simp
  | replace => simp

def unknownImport : List (String × List (Nat × Nat)) := [("X", [(999, 2)])]

/-- Counterexample to C9: card `999` is in no catalog (in particular not in
set `X`'s), the store for `X` is empty, yet a replace-mode import of
`{X: {999: 2}}` creates the ledger entry `999 ↦ 2` for set `X` —
`applyImport` does not check the imported numbers against the catalog,
and the JSON import path does not filter them out either. -/
theorem applyImport_creates_unknown_entry :
    st9.cardsAll.find? (fun c => c.Number = 999 ∧ c.Set = "X") = none ∧
    st9.stores ("X") 999 = none ∧
    (applyImport ImportMode.replace unknownImport st9).stores ("X") 999 = some 2 :=
  ⟨rfl, rfl, rfl⟩

/-- Witness for the amended C9 at the concrete unknown-number import. -/
theorem applyImport_caps_and_prunes_witness :
    (applyImport ImportMode.replace unknownImport st9).stores ("X") 999 =
      if (if ImportMode.replace = ImportMode.merge
          then min (2 + getQ (st9.stores ("X")) 999) (importQuota st9.cardsAll ("X") 999)
          else min 2 (importQuota st9.cardsAll ("X") 999)) > 0
      then some (if ImportMode.replace = ImportMode.merge
          then min (2 + getQ (st9.stores ("X")) 999) (importQuota st9.cardsAll ("X") 999)
          else min 2 (importQuota st9.cardsAll ("X") 999))
      else none :=
  applyImport_caps_and_prunes ImportMode.replace unknownImport st9 ("X")
    [(999, 2)] 999 2 (by decide) (by decide) (by decide) (by decide) (by decide)

-- Search resolver (C7) ------------------------------------------------------

/-- `norm(s) = s.toLowerCase().replace(/[^a-z0-9]/g, '')`. -/
def normStr (s : String) : String :=
  ⟨(s.data.map Char.toLower).filter (fun c =>
    ('a' ≤ c ∧ c ≤ 'z') ∨ ('0' ≤ c ∧ c ≤ '9'))⟩

/-- `/^[0-9]+$/.test(s)`. -/
def isDigits (s : String) : Bool :=
  !s.data.isEmpty && s.data.all (fun c => '0' ≤ c ∧ c ≤ '9')

/-- `s.replace(/^0+/, '') || '0'`. -/
def stripLeadingZeros (s : String) : String :=
  if s.data.dropWhile (fun c => c = '0') = [] then "0"
  else ⟨s.data.dropWhile (fun c => c = '0')⟩

/-- `Number(s)` for a digit string. -/
def digitsToNat (s : String) : Nat :=
  s.data.foldl (fun a c => a * 10 + (c.toNat - ('0').toNat)) 0

inductive SugKind
  | name
  | number
deriving DecidableEq, Repr

/-- One search suggestion (source type `Suggestion`). -/
structure Suggestion where
  kind : SugKind
  label : String
  number : Nat
  name : String
  setKey : String
  subtitle : Option String
  type : Option String
deriving DecidableEq, Repr

/-- The suggestion label
`` `${Name}${Subtitle ? ' - '+Subtitle : ''} — #${Number} (${key})` ``. -/
def sugLabel (name : String) (subtitle : Option String) (number : Nat)
    (key : String) : String :=
  name ++ (match subtitle with
    | some s => if s = "" then "" else " - " ++ s
    | none => "") ++ " — #" ++ toString number ++ " (" ++ key ++ ")"

/-- `parsed.byNumber.has(n)`. -/
def byNumberHas (ps : ParsedSet) (n : Nat) : Bool :=
  jsMapHas (ps.baseCards.map (fun c => (c.Number, c))) n

/-- `targetBaseNum` for one set: the queried number when it is a base
number, else its `altToBase` image, else 0. -/
def targetBase (p : ParsedSet) (q : Nat) : Nat :=
  if byNumberHas p q then q
  else if jsMapHas p.altToBase q then (jsMapGet p.altToBase q).getD 0
  else 0

/-- The `kind:'number'` suggestion one set contributes; the source's
non-null assertion `byNumber.get(targetBaseNum)!` is modelled by emitting
nothing when the lookup misses (the theorem's well-formedness hypotheses
rule that case out). -/
def numCandidate (q : Nat) (k : String) (p : ParsedSet) : Option Suggestion :=
  if targetBase p q > 0 then
    (lookupBase p (targetBase p q)).map (fun baseCard =>
      { kind := SugKind.number, name := baseCard.Name, number := baseCard.Number,
        type := some (baseCard.type.getD ""), setKey := k,
        subtitle := baseCard.Subtitle,
        label := sugLabel baseCard.Name baseCard.Subtitle baseCard.Number k })
  else none

/-- One iteration of the numeric branch's per-set loop: skip duplicates of
an already-emitted `(setKey, baseNumber)` pair (the `uniqueNumMatches`
set), `unshift` for the active set, `push` otherwise. -/
def numberMatchStep (q : Nat) (active : String) (acc : List Suggestion)
    (e : String × ParsedSet) : List Suggestion :=
  match numCandidate q e.1 e.2 with
  | some s =>
      if acc.any (fun t => t.setKey = e.1 ∧ t.number = s.number) then acc
      else if e.1 = active then s :: acc else acc ++ [s]
  | none => acc

/-- The numeric branch (`numberMatches`). -/
def numberMatches (q : Nat) (active : String)
    (cache : List (String × ParsedSet)) : List Suggestion :=
  cache.foldl (numberMatchStep q active) []

/-- First index at which `pat` occurs in `s` (`indexOf` without the −1). -/
def subIndex : List Char → List Char → Option Nat
  | s, pat =>
    if pat.isPrefixOf s then some 0
    else match s with
      | [] => none
      | _ :: t => (subIndex t pat).map (fun i => i + 1)

/-- `norm(c.Name).indexOf(lower)`. -/
def nameIdx (lower : String) (c : Card) : Int :=
  match subIndex (normStr c.Name).data lower.data with
  | some i => (i : Int)
  | none => -1

/-- `c.Subtitle ? norm(c.Subtitle).indexOf(lower) : -1`. -/
def subtitleIdx (lower : String) (c : Card) : Int :=
  match c.Subtitle with
  | some sub =>
      if sub = "" then -1
      else match subIndex (normStr sub).data lower.data with
        | some i => (i : Int)
        | none => -1
  | none => -1

/-- `aIdx = a.idx >= 0 ? a.idx : a.subIdx`. -/
def effIdx (lower : String) (c : Card) : Int :=
  if nameIdx lower c ≥ 0 then nameIdx lower c else subtitleIdx lower c

/-- The name-branch sort comparator (`aIdx - bIdx || localeCompare`) as a
`≤`-relation; `localeCompare` is modelled as code-point order. -/
def nameHitLE (lower : String) (a b : Card) : Prop :=
  effIdx lower a < effIdx lower b ∨
    (effIdx lower a = effIdx lower b ∧ a.Name ≤ b.Name)

instance (lower : String) : DecidableRel (nameHitLE lower) := fun a b => by
  unfold nameHitLE
  infer_instance

/-- One set's name-branch hits: filter base cards whose normalized name or
subtitle contains the query (and that the numeric branch did not already
emit), sort by match position then name. -/
def nameHits (lower : String) (excluded : List Nat) (k : String)
    (p : ParsedSet) : List Suggestion :=
  (List.insertionSort (nameHitLE lower)
      (p.baseCards.filter (fun c =>
        (decide (nameIdx lower c ≥ 0) || decide (subtitleIdx lower c ≥ 0)) &&
        !(excluded.contains c.Number)))).map
    (fun c =>
      { kind := SugKind.name, name := c.Name, number := c.Number,
        type := c.type, setKey := k, subtitle := c.Subtitle,
        label := sugLabel c.Name c.Subtitle c.Number k })

/-- The name branch (`nameMatches`): active set's block `unshift`ed, other
sets' blocks appended. -/
def nameMatches (lower : String) (active : String) (excluded : List Nat)
    (cache : List (String × ParsedSet)) : List Suggestion :=
  cache.foldl (fun acc e =>
    if e.1 = active then nameHits lower excluded e.1 e.2 ++ acc
    else acc ++ nameHits lower excluded e.1 e.2) []

/-- `suggestions`: numeric branch then name branch, truncated to 10. -/
def suggestions (query active : String)
    (cache : List (String × ParsedSet)) : List Suggestion :=
  if strTrim query = "" then []
  else
    ((if isDigits (strTrim query) then
        numberMatches (digitsToNat (stripLeadingZeros (strTrim query)))
          active cache
      else []) ++
     nameMatches (normStr (strTrim query)) active
       ((if isDigits (strTrim query) then
           numberMatches (digitsToNat (stripLeadingZeros (strTrim query)))
             active cache
         else []).map (fun s => s.number)) cache).take 10

lemma jsMapGet_eq_some {β : Type} (l : List (Nat × β)) (k : Nat) (v : β)
    (h : jsMapGet l k = some v) : (k, v) ∈ l := by
  unfold jsMapGet at h
  cases hf : l.reverse.find? (fun e => e.1 = k) with
  | none => rw [hf] at h; cases h
  | some e =>
      rw [hf] at h
      have hek : e.1 = k := by
        have := List.find?_some hf
        simpa using this
      have hmem : e ∈ l := List.mem_reverse.mp (List.mem_of_find?_eq_some hf)
      have hev : e.2 = v := by simpa using h
      have : e = (k, v) := by
        rw [← hek, ← hev]
      rw [← this]
      exact hmem

lemma jsMapHas_get {β : Type} (l : List (Nat × β)) (k : Nat)
    (h : jsMapHas l k = true) : ∃ v, jsMapGet l k = some v := by
  unfold jsMapHas at h
  unfold jsMapGet
  have hany : l.reverse.any (fun e => decide (e.1 = k)) = true := by
    rw [List.any_reverse]
    exact h
  rw [List.any_eq_true] at hany
  obtain ⟨e, he, hek⟩ := hany
  have : (l.reverse.find? (fun e => e.1 = k)).isSome = true :=
    List.find?_isSome.mpr ⟨e, he, hek⟩
  cases hf : l.reverse.find? (fun e => e.1 = k) with
  | none => rw [hf] at this; cases this
  | some e' => exact ⟨e'.2, rfl⟩

lemma jsMapHas_of_mem {β : Type} (l : List (Nat × β)) (e : Nat × β)
    (h : e ∈ l) : jsMapHas l e.1 = true := by
  unfold jsMapHas
  rw [List.any_eq_true]
  exact ⟨e, h, by simp⟩

lemma lookupBase_some (p : ParsedSet) (n : Nat) (c : Card)
    (h : lookupBase p n = some c) : c ∈ p.baseCards ∧ c.Number = n := by
  unfold lookupBase at h
  have hmem := jsMapGet_eq_some _ n c h
  obtain ⟨c', hc', heq⟩ := List.mem_map.mp hmem
  have h1 : c'.Number = n := congrArg Prod.fst heq
  have h2 : c' = c := congrArg Prod.snd heq
  rw [← h2]
  exact ⟨hc', h1⟩

lemma byNumberHas_iff (p : ParsedSet) (n : Nat) :
    byNumberHas p n = true ↔ ∃ c ∈ p.baseCards, c.Number = n := by
  unfold byNumberHas jsMapHas
  rw [List.any_eq_true]
  constructor
  · rintro ⟨e, he, hek⟩
    obtain ⟨c, hc, heq⟩ := List.mem_map.mp he
    rw [decide_eq_true_eq] at hek
    rw [← heq] at hek
    exact ⟨c, hc, hek⟩
  · rintro ⟨c, hc, hcn⟩
    exact ⟨(c.Number, c), List.mem_map_of_mem _ hc, by simpa using hcn⟩

lemma byNumberHas_lookup (p : ParsedSet) (n : Nat)
    (h : byNumberHas p n = true) :
    ∃ c, lookupBase p n = some c ∧ c ∈ p.baseCards ∧ c.Number = n := by
  unfold byNumberHas at h
  obtain ⟨c, hget⟩ := jsMapHas_get _ n h
  exact ⟨c, hget, lookupBase_some p n c hget⟩

lemma numCandidate_fields (q : Nat) (k : String) (p : ParsedSet) (s : Suggestion)
    (h : numCandidate q k p = some s) :
    s.setKey = k ∧ s.kind = SugKind.number := by
  unfold numCandidate at h
  split at h
  · cases hl : lookupBase p (targetBase p q) with
    | none => rw [hl] at h; cases h
    | some c =>
        rw [hl] at h
        simp only [Option.map_some'] at h
        injection h with h2
        rw [← h2]
        exact ⟨rfl, rfl⟩
  · cases h

lemma numberMatches_fold_perm (q : Nat) (active : String) :
    ∀ (l : List (String × ParsedSet)) (acc : List Suggestion),
    (l.map Prod.fst).Nodup →
    (∀ s ∈ acc, ∀ e ∈ l, ¬(s.setKey = e.1)) →
    (l.foldl (numberMatchStep q active) acc).Perm
      (acc ++ l.filterMap (fun e => numCandidate q e.1 e.2)) := by
  intro l
  induction l with
  | nil =>
      intro acc _ _
      simp
  | cons e t ih =>
      intro acc hnd hdisj
      simp only [List.map_cons, List.nodup_cons] at hnd
      rw [List.foldl_cons]
      unfold numberMatchStep
      cases hcand : numCandidate q e.1 e.2 with
      | none =>
          simp only [hcand, List.filterMap_cons]
          exact ih acc hnd.2
            (fun s hs e' he' => hdisj s hs e' (List.mem_cons_of_mem _ he'))
      | some s =>
          have hsk := (numCandidate_fields q e.1 e.2 s hcand).1
          have hchk : (acc.any fun t => t.setKey = e.1 ∧ t.number = s.number) = false := by
            rw [List.any_eq_false]
            intro s' hs'
            simp only [decide_eq_true_eq]
            intro hcontra
            exact hdisj s' hs' e (List.mem_cons_self e t) hcontra.1
          simp only [hcand, hchk, Bool.false_eq_true, if_false, List.filterMap_cons]
          by_cases hact : e.1 = active
          · rw [if_pos hact]
            have hdisj' : ∀ s' ∈ s :: acc, ∀ e' ∈ t, ¬(s'.setKey = e'.1) := by
              intro s' hs' e' he' hk'
              rcases List.mem_cons.mp hs' with rfl | hsa
              · rw [hsk] at hk'
                exact hnd.1 (hk' ▸ List.mem_map.mpr ⟨e', he', rfl⟩)
              · exact hdisj s' hsa e' (List.mem_cons_of_mem _ he') hk'
            refine (ih (s :: acc) hnd.2 hdisj').trans ?_
            rw [List.cons_append]
            exact List.perm_middle.symm
          · rw [if_neg hact]
            have hdisj' : ∀ s' ∈ acc ++ [s], ∀ e' ∈ t, ¬(s'.setKey = e'.1) := by
              intro s' hs' e' he' hk'
              rcases List.mem_append.mp hs' with hsa | hss
              · exact hdisj s' hsa e' (List.mem_cons_of_mem _ he') hk'
              · have : s' = s := by simpa using hss
                rw [this, hsk] at hk'
                exact hnd.1 (hk' ▸ List.mem_map.mpr ⟨e', he', rfl⟩)
            refine (ih (acc ++ [s]) hnd.2 hdisj').trans ?_
            rw [List.append_assoc, List.singleton_append]

lemma jsMapGet_none_of_not_has {β : Type} (l : List (Nat × β)) (k : Nat)
    (h : jsMapHas l k = false) : jsMapGet l k = none := by
  unfold jsMapGet
  cases hf : l.reverse.find? (fun e => e.1 = k) with
  | none => rfl
  | some e =>
      have hek := List.find?_some hf
      have hmem := List.mem_reverse.mp (List.mem_of_find?_eq_some hf)
      unfold jsMapHas at h
      rw [List.any_eq_false] at h
      exact absurd hek (h e hmem)

/-- Modelled on the claim's wording for C7: the query number is emitted for
a set exactly when it is a base-card number (resolving to itself) or an
alt-printing number (resolving through `altToBase`). -/
def resolveNum (p : ParsedSet) (q : Nat) : Option Nat :=
  if byNumberHas p q then some q else jsMapGet p.altToBase q

lemma numCandidate_number_eq (q : Nat) (k : String) (p : ParsedSet)
    (s : Suggestion) (h : numCandidate q k p = some s) :
    ∃ c, lookupBase p (targetBase p q) = some c ∧ s.number = c.Number ∧
      targetBase p q > 0 := by
  unfold numCandidate at h
  split at h
  · rename_i hpos
    cases hl : lookupBase p (targetBase p q) with
    | none => rw [hl] at h; cases h
    | some c =>
        rw [hl] at h
        simp only [Option.map_some'] at h
        injection h with h2
        exact ⟨c, rfl, by rw [← h2], hpos⟩
  · cases h

lemma numCandidate_of_lookup (q : Nat) (k : String) (p : ParsedSet) (c : Card)
    (hpos : targetBase p q > 0)
    (hl : lookupBase p (targetBase p q) = some c) :
    ∃ s, numCandidate q k p = some s ∧ s.number = c.Number := by
  unfold numCandidate
  rw [if_pos hpos, hl]
  exact ⟨_, rfl, rfl⟩

lemma numCandidate_number (q : Nat) (k : String) (p : ParsedSet)
    (hb : ∀ c ∈ p.baseCards, 1 ≤ c.Number)
    (ha : ∀ a ∈ p.altToBase, 1 ≤ a.2 ∧ ∃ c ∈ p.baseCards, c.Number = a.2)
    (b : Nat) :
    (∃ s, numCandidate q k p = some s ∧ s.number = b) ↔
      resolveNum p q = some b := by
  by_cases hhas : byNumberHas p q = true
  · have ht : targetBase p q = q := by
      unfold targetBase
      rw [if_pos hhas]
    obtain ⟨c, hlook, hcb, hcn⟩ := byNumberHas_lookup p q hhas
    have hq1 : 1 ≤ q := hcn ▸ hb c hcb
    constructor
    · rintro ⟨s, hs, hnb⟩
      obtain ⟨c', hl', hn', _⟩ := numCandidate_number_eq q k p s hs
      rw [ht] at hl'
      rw [hlook] at hl'
      injection hl' with hl'
      unfold resolveNum
      rw [if_pos hhas]
      rw [← hnb, hn', ← hl', hcn]
    · intro hr
      unfold resolveNum at hr
      rw [if_pos hhas] at hr
      injection hr with hr
      obtain ⟨s, hs, hn⟩ := numCandidate_of_lookup q k p c (by omega)
        (by rw [ht]; exact hlook)
      exact ⟨s, hs, by rw [hn, hcn, hr]⟩
  · have hhasF : byNumberHas p q = false := by
      cases hq : byNumberHas p q
      · rfl
      · exact absurd hq hhas
    by_cases haskey : jsMapHas p.altToBase q = true
    · obtain ⟨v, hget⟩ := jsMapHas_get _ q haskey
      have hmem := jsMapGet_eq_some _ q v hget
      obtain ⟨hv1, c, hcb, hcn⟩ := ha (q, v) hmem
      have ht : targetBase p q = v := by
        unfold targetBase
        rw [if_neg hhas, if_pos haskey, hget]
        rfl
      have hbhas : byNumberHas p v = true := (byNumberHas_iff p v).mpr ⟨c, hcb, hcn⟩
      obtain ⟨c', hlook, hcb', hcn'⟩ := byNumberHas_lookup p v hbhas
      constructor
      · rintro ⟨s, hs, hnb⟩
        obtain ⟨c'', hl', hn', _⟩ := numCandidate_number_eq q k p s hs
        rw [ht, hlook] at hl'
        injection hl' with hl'
        unfold resolveNum
        rw [if_neg hhas, hget]
        rw [← hnb, hn', ← hl', hcn']
      · intro hr
        unfold resolveNum at hr
        rw [if_neg hhas, hget] at hr
        injection hr with hr
        obtain ⟨s, hs, hn⟩ := numCandidate_of_lookup q k p c' (by omega)
          (by rw [ht]; exact hlook)
        exact ⟨s, hs, by rw [hn, hcn', hr]⟩
    · have haskeyF : jsMapHas p.altToBase q = false := by
        cases hq : jsMapHas p.altToBase q
        · rfl
        · exact absurd hq haskey
      have ht : targetBase p q = 0 := by
        unfold targetBase
        rw [if_neg hhas, if_neg haskey]
      have hcn : numCandidate q k p = none := by
        unfold numCandidate
        rw [ht]
        rfl
      constructor
      · rintro ⟨s, hs, _⟩
        rw [hcn] at hs
        cases hs
      · intro hr
        unfold resolveNum at hr
        rw [if_neg hhas, jsMapGet_none_of_not_has _ q haskeyF] at hr
        cases hr

lemma numberMatchStep_some (q : Nat) (active : String) (acc : List Suggestion)
    (e : String × ParsedSet) (s : Suggestion)
    (h : numCandidate q e.1 e.2 = some s) :
    numberMatchStep q active acc e =
      if acc.any (fun t => t.setKey = e.1 ∧ t.number = s.number) then acc
      else if e.1 = active then s :: acc else acc ++ [s] := by
  unfold numberMatchStep
  rw [h]

lemma numberMatchStep_none (q : Nat) (active : String) (acc : List Suggestion)
    (e : String × ParsedSet) (h : numCandidate q e.1 e.2 = none) :
    numberMatchStep q active acc e = acc := by
  unfold numberMatchStep
  rw [h]

lemma numberMatches_fold_activeFirst (q : Nat) (active : String) :
    ∀ (l : List (String × ParsedSet)) (acc : List Suggestion),
    acc.Pairwise (fun s t => ¬(s.setKey = active) → ¬(t.setKey = active)) →
    (l.foldl (numberMatchStep q active) acc).Pairwise
      (fun s t => ¬(s.setKey = active) → ¬(t.setKey = active)) := by
  intro l
  induction l with
  | nil => intro acc h; exact h
  | cons e t ih =>
      intro acc hacc
      rw [List.foldl_cons]
      apply ih
      cases hcand : numCandidate q e.1 e.2 with
      | none =>
          rw [numberMatchStep_none q active acc e hcand]
          exact hacc
      | some s =>
          rw [numberMatchStep_some q active acc e s hcand]
          have hsk := (numCandidate_fields q e.1 e.2 s hcand).1
          by_cases hchk : (acc.any fun t => t.setKey = e.1 ∧ t.number = s.number) = true
          · rw [if_pos hchk]
            exact hacc
          · rw [if_neg hchk]
            by_cases hact : e.1 = active
            · rw [if_pos hact]
              rw [List.pairwise_cons]
              refine ⟨?_, hacc⟩
              intro t' _ hs
              exact absurd (hsk.trans hact) hs
            · rw [if_neg hact]
              rw [List.pairwise_append]
              refine ⟨hacc, List.pairwise_singleton _ _, ?_⟩
              intro a _ b hb _
              have hbs : b = s := by simpa using hb
              rw [hbs, hsk]
              exact hact

lemma numberMatches_fold_kind (q : Nat) (active : String) :
    ∀ (l : List (String × ParsedSet)) (acc : List Suggestion),
    (∀ s ∈ acc, s.kind = SugKind.number) →
    ∀ s ∈ l.foldl (numberMatchStep q active) acc, s.kind = SugKind.number := by
  intro l
  induction l with
  | nil => intro acc h; exact h
  | cons e t ih =>
      intro acc hacc
      rw [List.foldl_cons]
      apply ih
      cases hcand : numCandidate q e.1 e.2 with
      | none =>
          rw [numberMatchStep_none q active acc e hcand]
          exact hacc
      | some s =>
          rw [numberMatchStep_some q active acc e s hcand]
          have hsk := (numCandidate_fields q e.1 e.2 s hcand).2
          by_cases hchk : (acc.any fun t => t.setKey = e.1 ∧ t.number = s.number) = true
          · rw [if_pos hchk]
            exact hacc
          · rw [if_neg hchk]
            by_cases hact : e.1 = active
            · rw [if_pos hact]
              intro s' hs'
              rcases List.mem_cons.mp hs' with rfl | hsa
              · exact hsk
              · exact hacc s' hsa
            · rw [if_neg hact]
              intro s' hs'
              rcases List.mem_append.mp hs' with hsa | hss
              · exact hacc s' hsa
              · have hss2 : s' = s := by simpa using hss
                rw [hss2]
                exact hsk

lemma nameHits_fields (lower : String) (excluded : List Nat) (k : String)
    (p : ParsedSet) : ∀ s ∈ nameHits lower excluded k p,
    s.setKey = k ∧ s.kind = SugKind.name := by
  intro s hs
  unfold nameHits at hs
  obtain ⟨c, _, rfl⟩ := List.mem_map.mp hs
  exact ⟨rfl, rfl⟩

lemma nameMatches_fold_activeFirst (lower : String) (active : String)
    (excluded : List Nat) :
    ∀ (l : List (String × ParsedSet)) (acc : List Suggestion),
    acc.Pairwise (fun s t => ¬(s.setKey = active) → ¬(t.setKey = active)) →
    (l.foldl (fun acc e =>
      if e.1 = active then nameHits lower excluded e.1 e.2 ++ acc
      else acc ++ nameHits lower excluded e.1 e.2) acc).Pairwise
      (fun s t => ¬(s.setKey = active) → ¬(t.setKey = active)) := by
  intro l
  induction l with
  | nil => intro acc h; exact h
  | cons e t ih =>
      intro acc hacc
      rw [List.foldl_cons]
      apply ih
      by_cases hact : e.1 = active
      · rw [if_pos hact]
        rw [List.pairwise_append]
        refine ⟨?_, hacc, ?_⟩
        · apply List.pairwise_of_forall_mem_list
          intro a ha b _ hna
          exact absurd ((nameHits_fields lower excluded e.1 e.2 a ha).1.trans hact) hna
        · intro a ha b _ hna
          exact absurd ((nameHits_fields lower excluded e.1 e.2 a ha).1.trans hact) hna
      · rw [if_neg hact]
        rw [List.pairwise_append]
        refine ⟨hacc, ?_, ?_⟩
        · apply List.pairwise_of_forall_mem_list
          intro a _ b hb _
          rw [(nameHits_fields lower excluded e.1 e.2 b hb).1]
          exact hact
        · intro a _ b hb _
          rw [(nameHits_fields lower excluded e.1 e.2 b hb).1]
          exact hact

lemma nameMatches_fold_kind (lower : String) (active : String)
    (excluded : List Nat) :
    ∀ (l : List (String × ParsedSet)) (acc : List Suggestion),
    (∀ s ∈ acc, s.kind = SugKind.name) →
    ∀ s ∈ l.foldl (fun acc e =>
      if e.1 = active then nameHits lower excluded e.1 e.2 ++ acc
      else acc ++ nameHits lower excluded e.1 e.2) acc,
      s.kind = SugKind.name := by
  intro l
  induction l with
  | nil => intro acc h; exact h
  | cons e t ih =>
      intro acc hacc
      rw [List.foldl_cons]
      apply ih
      by_cases hact : e.1 = active
      · rw [if_pos hact]
        intro s hs
        rcases List.mem_append.mp hs with h1 | h2
        · exact (nameHits_fields lower excluded e.1 e.2 s h1).2
        · exact hacc s h2
      · rw [if_neg hact]
        intro s hs
        rcases List.mem_append.mp hs with h1 | h2
        · exact hacc s h1
        · exact (nameHits_fields lower excluded e.1 e.2 s h2).2

lemma filterMap_numCandidate_pairwise (q : Nat) :
    ∀ (l : List (String × ParsedSet)),
    (l.map Prod.fst).Nodup →
    (l.filterMap (fun e => numCandidate q e.1 e.2)).Pairwise
      (fun s t => ¬(s.setKey = t.setKey ∧ s.number = t.number)) := by
  intro l
  induction l with
  | nil => intro _; exact List.Pairwise.nil
  | cons e t ih =>
      intro hnd
      simp only [List.map_cons, List.nodup_cons] at hnd
      rw [List.filterMap_cons]
      cases hcand : numCandidate q e.1 e.2 with
      | none => exact ih hnd.2
      | some s =>
          rw [List.pairwise_cons]
          refine ⟨?_, ih hnd.2⟩
          intro s' hs' hcontra
          obtain ⟨e', he', hc'⟩ := List.mem_filterMap.mp hs'
          have h1 := (numCandidate_fields q e.1 e.2 s hcand).1
          have h2 := (numCandidate_fields q e'.1 e'.2 s' hc').1
          apply hnd.1
          rw [← h1, hcontra.1, h2]
          exact List.mem_map.mpr ⟨e', he', rfl⟩

/-- C7: for a digits-only query against a well-formed catalog cache
(distinct set keys, positive base numbers, `altToBase` values that are
base numbers): (i) the numeric branch emits one `kind:'number'` suggestion
for a set exactly for the claimed resolution (the query number is a base
number, or an alt number resolved through `altToBase`); (ii) at most one
suggestion per distinct `(setKey, baseNumber)` pair; (iii) in the final
list every numeric suggestion precedes every name suggestion; (iv) in each
branch active-set suggestions precede other sets'; (v) the final list has
at most 10 entries. -/
theorem suggestions_digits_spec (query active : String)
    (cache : List (String × ParsedSet))
    (hne : ¬(strTrim query = "")) (hdig : isDigits (strTrim query) = true)
    (hkeys : (cache.map Prod.fst).Nodup)
    (hbpos : ∀ e ∈ cache, ∀ c ∈ e.2.baseCards, 1 ≤ c.Number)
    (halts : ∀ e ∈ cache, ∀ a ∈ e.2.altToBase,
      1 ≤ a.2 ∧ ∃ c ∈ e.2.baseCards, c.Number = a.2) :
    (∀ k p, (k, p) ∈ cache → ∀ b : Nat,
      ((∃ s ∈ numberMatches (digitsToNat (stripLeadingZeros (strTrim query)))
          active cache, s.setKey = k ∧ s.number = b) ↔
        resolveNum p (digitsToNat (stripLeadingZeros (strTrim query))) =
          some b)) ∧
    (numberMatches (digitsToNat (stripLeadingZeros (strTrim query))) active
      cache).Pairwise
      (fun s t => ¬(s.setKey = t.setKey ∧ s.number = t.number)) ∧
    (suggestions query active cache).Pairwise
      (fun s t => s.kind = SugKind.name → t.kind = SugKind.name) ∧
    (numberMatches (digitsToNat (stripLeadingZeros (strTrim query))) active
      cache).Pairwise
      (fun s t => ¬(s.setKey = active) → ¬(t.setKey = active)) ∧
    (nameMatches (normStr (strTrim query)) active
      ((numberMatches (digitsToNat (stripLeadingZeros (strTrim query))) active
        cache).map (fun s => s.number)) cache).Pairwise
      (fun s t => ¬(s.setKey = active) → ¬(t.setKey = active)) ∧
    (suggestions query active cache).length ≤ 10 := by
  have hperm : (numberMatches (digitsToNat (stripLeadingZeros (strTrim query)))
      active cache).Perm
      (cache.filterMap (fun e => numCandidate
        (digitsToNat (stripLeadingZeros (strTrim query))) e.1 e.2)) := by
    have h := numberMatches_fold_perm
      (digitsToNat (stripLeadingZeros (strTrim query))) active cache [] hkeys
      (fun s hs => absurd hs (List.not_mem_nil s))
    simpa [numberMatches] using h
  have hsugg : suggestions query active cache =
      (numberMatches (digitsToNat (stripLeadingZeros (strTrim query))) active
        cache ++
       nameMatches (normStr (strTrim query)) active
        ((numberMatches (digitsToNat (stripLeadingZeros (strTrim query)))
          active cache).map (fun s => s.number)) cache).take 10 := by
    unfold suggestions
    rw [if_neg hne, if_pos hdig]
  have hnumkind : ∀ s ∈ numberMatches
      (digitsToNat (stripLeadingZeros (strTrim query))) active cache,
      s.kind = SugKind.number := by
    intro s hs
    exact numberMatches_fold_kind _ active cache []
      (fun s' hs' => absurd hs' (List.not_mem_nil s')) s hs
  have hnamekind : ∀ s ∈ nameMatches (normStr (strTrim query)) active
      ((numberMatches (digitsToNat (stripLeadingZeros (strTrim query))) active
        cache).map (fun s => s.number)) cache, s.kind = SugKind.name := by
    intro s hs
    exact nameMatches_fold_kind _ active _ cache []
      (fun s' hs' => absurd hs' (List.not_mem_nil s')) s hs
  refine ⟨?_, ?_, ?_, ?_, ?_, ?_⟩
  · intro k p hkp b
    constructor
    · rintro ⟨s, hs, hsk, hsb⟩
      have hs' := hperm.mem_iff.mp hs
      obtain ⟨e, he, hc⟩ := List.mem_filterMap.mp hs'
      have hef := (numCandidate_fields _ e.1 e.2 s hc).1
      have hek : e.1 = k := by rw [← hef, hsk]
      have hep : e = (k, p) :=
        List.inj_on_of_nodup_map hkeys he hkp (by rw [hek])
      rw [hep] at hc
      exact (numCandidate_number _ k p (hbpos (k, p) hkp)
        (halts (k, p) hkp) b).mp ⟨s, hc, hsb⟩
    · intro hr
      obtain ⟨s, hc, hsb⟩ := (numCandidate_number _ k p (hbpos (k, p) hkp)
        (halts (k, p) hkp) b).mpr hr
      refine ⟨s, hperm.mem_iff.mpr (List.mem_filterMap.mpr ⟨(k, p), hkp, hc⟩),
        (numCandidate_fields _ k p s hc).1, hsb⟩
  · exact (List.Perm.pairwise_iff
      (fun h hcontra => h ⟨hcontra.1.symm, hcontra.2.symm⟩) hperm).mpr
      (filterMap_numCandidate_pairwise _ cache hkeys)
  · rw [hsugg]
    apply List.Pairwise.sublist (List.take_sublist 10 _)
    rw [List.pairwise_append]
    refine ⟨?_, ?_, ?_⟩
    · apply List.pairwise_of_forall_mem_list
      intro a ha b _ hak
      rw [hnumkind a ha] at hak
      cases hak
    · apply List.pairwise_of_forall_mem_list
      intro a _ b hb _
      exact hnamekind b hb
    · intro a _ b hb _
      exact hnamekind b hb
  · exact numberMatches_fold_activeFirst _ active cache [] List.Pairwise.nil
  · exact nameMatches_fold_activeFirst _ active _ cache [] List.Pairwise.nil
  · rw [hsugg]
    exact List.length_take_le 10 _

def hk47 : Card := { Name := "HK-47", Number := 1, type := some ("Unit") }

def card47 : Card := { Name := "Foo", Number := 47, type := some ("Unit") }

def set47 : ParsedSet := parseSet "S" [hk47, card47]

def cache47 : List (String × ParsedSet) := [("S", set47)]

/-- Witness for C7 on the claim's scenario: the query `"47"` against a set
holding card `#47` and a card named `"HK-47"` returns both, the numeric
match first; the general theorem is applied at this concrete input. -/
theorem suggestions_digits_spec_witness :
    (suggestions "47" "S" cache47).map (fun s => (s.kind, s.number, s.name)) =
      [(SugKind.number, 47, "Foo"), (SugKind.name, 1, "HK-47")] ∧
    ((∀ k p, (k, p) ∈ cache47 → ∀ b : Nat,
      ((∃ s ∈ numberMatches (digitsToNat (stripLeadingZeros (strTrim "47")))
          "S" cache47, s.setKey = k ∧ s.number = b) ↔
        resolveNum p (digitsToNat (stripLeadingZeros (strTrim "47"))) =
          some b)) ∧
    (numberMatches (digitsToNat (stripLeadingZeros (strTrim "47"))) "S"
      cache47).Pairwise
      (fun s t => ¬(s.setKey = t.setKey ∧ s.number = t.number)) ∧
    (suggestions "47" "S" cache47).Pairwise
      (fun s t => s.kind = SugKind.name → t.kind = SugKind.name) ∧
    (numberMatches (digitsToNat (stripLeadingZeros (strTrim "47"))) "S"
      cache47).Pairwise
      (fun s t => ¬(s.setKey = "S") → ¬(t.setKey = "S")) ∧
    (nameMatches (normStr (strTrim "47")) "S"
      ((numberMatches (digitsToNat (stripLeadingZeros (strTrim "47"))) "S"
        cache47).map (fun s => s.number)) cache47).Pairwise
      (fun s t => ¬(s.setKey = "S") → ¬(t.setKey = "S")) ∧
    (suggestions "47" "S" cache47).length ≤ 10) :=
  ⟨rfl, suggestions_digits_spec "47" "S" cache47 (by decide) (by decide)
    (by decide) (by decide) (by decide)⟩
